import Mathlib

/-!
Verification development for the iptv-player content pipeline.

Shallow embedding of the TypeScript sources:
  - `src/utils/contentParser.ts`   (metadata extraction, content keys, quality choice)
  - `src/utils/deduplicator.ts`    (grouping into DeduplicatedContent, variant choice)
  - `src/parsers/m3uParser.ts`     (M3U playlist parsing)
  - `src/parsers/xtreamApi.ts`     (EPG title/description base64 decoding)
  - the EPG hook (`getCurrentProgram`)

Strings are modelled as `List Char`.  JavaScript regular expressions are
modelled by dedicated matching functions that follow each concrete pattern of
the source (leftmost match, alternation order, greedy quantifiers,
word boundaries with the ASCII word-character class, ASCII case folding for
the `i` flag).  J-S `Array.prototype.sort` (stable) is modelled by
`List.mergeSort` (stable).  JS `Map` (insertion-ordered) is modelled by an
association list updated in place.
-/

namespace IPTV

/-- Strings of the embedded program. -/
abbrev Str := List Char

/-! ### Character classes and basic string operations -/

/-- JS regex `\s` / `trim()` whitespace (ASCII part plus the common Unicode
space code points; titles in this code base are ASCII). -/
def jsSpace (c : Char) : Bool :=
  c = ' ' || c = '\t' || c = '\n' || c = '\x0b' || c = '\x0c' || c = '\r' ||
  c = ' ' || c.toNat = 0x2028 || c.toNat = 0x2029 || c.toNat = 0xfeff ||
  c.toNat = 0x1680 || (0x2000 ≤ c.toNat && c.toNat ≤ 0x200a) ||
  c.toNat = 0x202f || c.toNat = 0x205f || c.toNat = 0x3000

/-- ASCII word character, the `\w` class used by non-unicode JS `\b`. -/
def wordChar (c : Char) : Bool :=
  ('A' ≤ c && c ≤ 'Z') || ('a' ≤ c && c ≤ 'z') || ('0' ≤ c && c ≤ '9') || c = '_'

/-- ASCII lower casing (canonicalisation used by the `i` flag on the ASCII
patterns of this code base, and by `toLowerCase` on ASCII names). -/
def lowerChar (c : Char) : Char :=
  if 'A' ≤ c ∧ c ≤ 'Z' then Char.ofNat (c.toNat + 32) else c

/-- ASCII upper casing (`toUpperCase` on the 2-letter country codes). -/
def upperChar (c : Char) : Char :=
  if 'a' ≤ c ∧ c ≤ 'z' then Char.ofNat (c.toNat - 32) else c

def asciiLetter (c : Char) : Bool :=
  ('A' ≤ c && c ≤ 'Z') || ('a' ≤ c && c ≤ 'z')

def asciiDigit (c : Char) : Bool := '0' ≤ c && c ≤ '9'

/-- `trim()`. -/
def jsTrim (s : Str) : Str :=
  (s.dropWhile jsSpace).reverse.dropWhile jsSpace |>.reverse

/-- Case-insensitive (ASCII) test that `p` starts the string `s`. -/
def ciStarts : Str → Str → Bool
  | [], _ => true
  | _ :: _, [] => false
  | p :: ps, c :: cs => lowerChar p = lowerChar c && ciStarts ps cs

def countLeading (p : Char → Bool) (s : Str) : Nat := (s.takeWhile p).length

/-! ### Word-boundary alternation patterns

All word alternatives appearing in the source tables begin and end with a
word character, so `\b` before the match means "previous character absent or
not a word character" and `\b` after the match means "next character absent
or not a word character". -/

/-- `\b` holds before the current position (`prev` = preceding character). -/
def wordBoundaryBefore (prev : Option Char) : Bool :=
  match prev with
  | none => true
  | some c => !wordChar c

/-- `\b` holds after a match of length `len` starting the string `s`. -/
def wordBoundaryAfter (s : Str) (len : Nat) : Bool :=
  match s.drop len with
  | [] => true
  | c :: _ => !wordChar c

/-- The rest of the string after a match of length `len` is only whitespace
(so that `(?!\s*$)` fails). -/
def onlySpacesAfter (s : Str) (len : Nat) : Bool := (s.drop len).all jsSpace

/-- One of the regex shapes used by the pattern tables of `contentParser.ts`:
`plain alts` is `/\b(a1|a2|…)\b/i`; `notAtEnd alts` is `/\b(a1|a2|…)\b(?!\s*$)/i`
(the shape of the `HD` pattern). -/
inductive WordPat where
  | plain (alts : List Str)
  | notAtEnd (alts : List Str)
deriving DecidableEq, Repr

/-- First alternative (in order) that matches at the current position and
passes the check `ok` on its length; returns the match length. -/
def findAlt (ok : Nat → Bool) (alts : List Str) (s : Str) : Option Nat :=
  match alts with
  | [] => none
  | w :: rest =>
    if ciStarts w s && ok w.length then some w.length else findAlt ok rest s

/-- Attempt to match a `WordPat` at the current position. -/
def wordPatAt (p : WordPat) (prev : Option Char) (s : Str) : Option Nat :=
  if wordBoundaryBefore prev then
    match p with
    | .plain alts => findAlt (fun len => wordBoundaryAfter s len) alts s
    | .notAtEnd alts =>
        findAlt (fun len => wordBoundaryAfter s len && !onlySpacesAfter s len) alts s
  else none

/-! ### Leftmost-match scanning, test and first-occurrence replacement -/

/-- Does the matcher `m` succeed at some position of `s`
(`prev` = character before the current position)?  Models `pattern.test(s)`. -/
def scanTest (m : Option Char → Str → Option Nat) (prev : Option Char) (s : Str) : Bool :=
  match m prev s with
  | some _ => true
  | none =>
    match s with
    | [] => false
    | c :: rest => scanTest m (some c) rest

/-- Remove the leftmost match of `m` from `s`.
Models `s.replace(pattern, '')` for a non-global pattern. -/
def scanRemove (m : Option Char → Str → Option Nat) (prev : Option Char) (s : Str) : Str :=
  match m prev s with
  | some len => s.drop len
  | none =>
    match s with
    | [] => []
    | c :: rest => c :: scanRemove m (some c) rest

def patTest (p : WordPat) (s : Str) : Bool := scanTest (wordPatAt p) none s

def patRemoveFirst (p : WordPat) (s : Str) : Str := scanRemove (wordPatAt p) none s

/-! ### The concrete patterns of `contentParser.ts` -/

/-- `Quality` from `preferences.types.ts`:  `'4K' | 'FHD' | 'HD' | 'SD' | 'auto'`. -/
inductive Quality where
  | q4K | FHD | HD | SD | auto
deriving DecidableEq, Repr

/-- `COUNTRY_PATTERNS`, in the insertion (iteration) order of the source. -/
def COUNTRY_PATTERNS : List (Str × WordPat) :=
  [("FR".toList, .plain ["FR".toList, "FRANCE".toList, "FRENCH".toList]),
   ("BE".toList, .plain ["BE".toList, "BELGIUM".toList, "BELGE".toList]),
   ("CH".toList, .plain ["CH".toList, "SUISSE".toList, "SWISS".toList]),
   ("CA".toList, .plain ["CA".toList, "CANADA".toList, "CANADIAN".toList]),
   ("US".toList, .plain ["US".toList, "USA".toList, "AMERICAN".toList, "ENGLISH".toList]),
   ("UK".toList, .plain ["UK".toList, "GB".toList, "BRITISH".toList]),
   ("ES".toList, .plain ["ES".toList, "SPAIN".toList, "SPANISH".toList, "ESPANA".toList]),
   ("IT".toList, .plain ["IT".toList, "ITALY".toList, "ITALIAN".toList, "ITALIA".toList]),
   ("DE".toList, .plain ["DE".toList, "GERMANY".toList, "GERMAN".toList, "DEUTSCH".toList]),
   ("PT".toList, .plain ["PT".toList, "PORTUGAL".toList, "PORTUGUESE".toList]),
   ("AR".toList, .plain ["AR".toList, "ARAB".toList, "ARABIC".toList, "ARABE".toList]),
   ("TR".toList, .plain ["TR".toList, "TURKEY".toList, "TURKISH".toList, "TURK".toList]),
   ("NL".toList, .plain ["NL".toList, "NETHERLANDS".toList, "DUTCH".toList]),
   ("PL".toList, .plain ["PL".toList, "POLAND".toList, "POLISH".toList]),
   ("RO".toList, .plain ["RO".toList, "ROMANIA".toList, "ROMANIAN".toList]),
   ("RU".toList, .plain ["RU".toList, "RUSSIA".toList, "RUSSIAN".toList]),
   ("IN".toList, .plain ["IN".toList, "INDIA".toList, "INDIAN".toList, "HINDI".toList]),
   ("BR".toList, .plain ["BR".toList, "BRAZIL".toList, "BRAZILIAN".toList]),
   ("MX".toList, .plain ["MX".toList, "MEXICO".toList, "MEXICAN".toList]),
   ("JP".toList, .plain ["JP".toList, "JAPAN".toList, "JAPANESE".toList]),
   ("KR".toList, .plain ["KR".toList, "KOREA".toList, "KOREAN".toList]),
   ("CN".toList, .plain ["CN".toList, "CHINA".toList, "CHINESE".toList])]

/-- `QUALITY_PATTERNS` (ordered). The `HD` entry carries the `(?!\s*$)`
negative lookahead of the source. -/
def QUALITY_PATTERNS : List (Quality × WordPat) :=
  [(Quality.q4K, .plain ["4K".toList, "UHD".toList, "2160p".toList]),
   (Quality.FHD, .plain ["FHD".toList, "1080p".toList, "FULLHD".toList, "FULL HD".toList]),
   (Quality.HD, .notAtEnd ["HD".toList, "720p".toList]),
   (Quality.SD, .plain ["SD".toList, "480p".toList, "LQ".toList])]

/-- `LANGUAGE_PATTERNS` (ordered). -/
def LANGUAGE_PATTERNS : List (Str × WordPat) :=
  [("MULTI".toList, .plain ["MULTI".toList, "MULTi".toList]),
   ("VFF".toList, .plain ["VFF".toList, "FRENCH".toList]),
   ("VF".toList, .plain ["VF".toList]),
   ("TRUEFRENCH".toList, .plain ["TRUEFRENCH".toList, "TRUE FRENCH".toList]),
   ("VOSTFR".toList, .plain ["VOSTFR".toList, "STFR".toList]),
   ("VO".toList, .plain ["VO".toList])]

/-- Keys of the `COUNTRIES` table of `preferences.types.ts`. -/
def COUNTRIES_keys : List Str :=
  ["FR".toList, "BE".toList, "CH".toList, "CA".toList, "US".toList, "UK".toList,
   "ES".toList, "IT".toList, "DE".toList, "PT".toList, "AR".toList, "TR".toList,
   "NL".toList, "PL".toList, "RO".toList, "RU".toList, "IN".toList, "BR".toList,
   "MX".toList, "JP".toList, "KR".toList, "CN".toList]

/-- Match of `/^([A-Z]{2})\s*[:\-|]\s*/i` at the start of `s`:
returns the two captured letters and the full match length. -/
def countryPrefixAt (s : Str) : Option (Str × Nat) :=
  match s with
  | a :: b :: rest =>
    if asciiLetter a && asciiLetter b then
      let k := countLeading jsSpace rest
      match rest.drop k with
      | sep :: rest2 =>
        if sep = ':' ∨ sep = '-' ∨ sep = '|' then
          let k2 := countLeading jsSpace rest2
          some ([a, b], 2 + k + 1 + k2)
        else none
      | [] => none
    else none
  | _ => none

/-- Numeric value of a list of ASCII digits (the `parseInt` calls of the
extractor are always applied to plain digit strings). -/
def digitsVal (ds : Str) : Nat :=
  ds.foldl (fun n c => n * 10 + (c.toNat - '0'.toNat)) 0

/-- Match of `YEAR_PATTERN`'s core `(19|20)\d{2}\)?` at the current position:
returns (match length, year value). -/
def yearCoreAt (s : Str) : Option (Nat × Nat) :=
  match s with
  | c1 :: c2 :: c3 :: c4 :: rest =>
    if ((c1 = '1' ∧ c2 = '9') ∨ (c1 = '2' ∧ c2 = '0')) ∧ asciiDigit c3 ∧ asciiDigit c4 then
      let v := digitsVal [c1, c2, c3, c4]
      match rest with
      | ')' :: _ => some (5, v)
      | _ => some (4, v)
    else none
  | _ => none

/-- Match of `YEAR_PATTERN = /\(?(19|20)\d{2}\)?/` at the current position. -/
def yearAt (_prev : Option Char) (s : Str) : Option (Nat × Nat) :=
  match s with
  | '(' :: rest =>
    match yearCoreAt rest with
    | some (len, v) => some (len + 1, v)
    | none => none
  | _ => yearCoreAt s

/-- Greedy `\d{1,2}`: one or two leading digits. -/
def take12Digits (s : Str) : Option (Str × Str) :=
  match s with
  | c1 :: c2 :: rest =>
    if asciiDigit c1 then
      if asciiDigit c2 then some ([c1, c2], rest) else some ([c1], c2 :: rest)
    else none
  | [c1] => if asciiDigit c1 then some ([c1], []) else none
  | [] => none

/-- Match of `SEASON_EPISODE_PATTERN = /S(\d{1,2})(?:E(\d{1,2}))?/i` at the
current position: (match length, season, episode?). -/
def seasonEpisodeAt (_prev : Option Char) (s : Str) : Option (Nat × Nat × Option Nat) :=
  match s with
  | c :: rest =>
    if lowerChar c = 's' then
      match take12Digits rest with
      | some (ds, rest2) =>
        match rest2 with
        | e :: rest3 =>
          if lowerChar e = 'e' then
            match take12Digits rest3 with
            | some (es, _) =>
                some (1 + ds.length + 1 + es.length, digitsVal ds, some (digitsVal es))
            | none => some (1 + ds.length, digitsVal ds, none)
          else some (1 + ds.length, digitsVal ds, none)
        | [] => some (1 + ds.length, digitsVal ds, none)
      | none => none
    else none
  | [] => none

/-- `\d{1,2}\b` with greedy backtracking (two digits, else one), used by the
spelled-out season pattern. -/
def digits12Boundary (s : Str) : Option (Nat × Nat) :=
  match s with
  | c1 :: c2 :: rest =>
    if asciiDigit c1 then
      if asciiDigit c2 ∧ wordBoundaryAfter (c1 :: c2 :: rest) 2 then
        some (2, digitsVal [c1, c2])
      else if wordBoundaryAfter (c1 :: c2 :: rest) 1 then some (1, digitsVal [c1])
      else none
    else none
  | [c1] => if asciiDigit c1 then some (1, digitsVal [c1]) else none
  | [] => none

/-- One alternative of `(?:AISON|EASON)?` followed by `\s*(\d{1,2})\b`. -/
def seasonTail (ext : Str) (rest : Str) : Option (Nat × Nat) :=
  if ciStarts ext rest then
    let r2 := rest.drop ext.length
    let k := countLeading jsSpace r2
    match digits12Boundary (r2.drop k) with
    | some (dl, v) => some (ext.length + k + dl, v)
    | none => none
  else none

/-- Match of `SEASON_PATTERN = /\bS(?:AISON|EASON)?\s*(\d{1,2})\b/i` at the
current position: (match length, season value).  Alternatives of the optional
group are tried in order `AISON`, `EASON`, empty, as the JS engine does. -/
def seasonAt (prev : Option Char) (s : Str) : Option (Nat × Nat) :=
  if wordBoundaryBefore prev then
    match s with
    | c :: rest =>
      if lowerChar c = 's' then
        match seasonTail "AISON".toList rest with
        | some (len, v) => some (1 + len, v)
        | none =>
          match seasonTail "EASON".toList rest with
          | some (len, v) => some (1 + len, v)
          | none =>
            match seasonTail [] rest with
            | some (len, v) => some (1 + len, v)
            | none => none
      else none
    | [] => none
  else none

/-- Leftmost match of a matcher that also returns a payload `β`
(used to model `name.match(pattern)` for the year/season patterns). -/
def scanFind {β : Type} (m : Option Char → Str → Option (Nat × β))
    (prev : Option Char) (s : Str) : Option (Nat × β) :=
  match m prev s with
  | some r => some r
  | none =>
    match s with
    | [] => none
    | c :: rest => scanFind m (some c) rest

/-- Drop the payload of a payload-carrying matcher (for `scanRemove`). -/
def lenOf {β : Type} (m : Option Char → Str → Option (Nat × β))
    (prev : Option Char) (s : Str) : Option Nat :=
  (m prev s).map (·.1)

/-! ### Final clean-up passes of `parseContentMetadata` -/

def sepChar (c : Char) : Bool := c = ':' || c = '-' || c = '|'

/-- `replace(/[:\-|]+/g, ' ')`: every run of separators becomes one space. -/
def collapseSeps : Bool → Str → Str
  | _, [] => []
  | prevSep, c :: rest =>
    if sepChar c then
      if prevSep then collapseSeps true rest else ' ' :: collapseSeps true rest
    else c :: collapseSeps false rest

/-- `replace(/\s+/g, ' ')`: every whitespace run becomes one space. -/
def squeezeSpaces : Bool → Str → Str
  | _, [] => []
  | prevWs, c :: rest =>
    if jsSpace c then
      if prevWs then squeezeSpaces true rest else ' ' :: squeezeSpaces true rest
    else c :: squeezeSpaces false rest

/-- Match of `/\s*\(\s*\)\s*/` at the current position (length only). -/
def emptyParenAt (s : Str) : Option Nat :=
  let k1 := countLeading jsSpace s
  match s.drop k1 with
  | '(' :: r =>
    let k2 := countLeading jsSpace r
    match r.drop k2 with
    | ')' :: r2 => some (k1 + 1 + k2 + 1 + countLeading jsSpace r2)
    | _ => none
  | _ => none

/-- `replace(/\s*\(\s*\)\s*/g, '')`, with structural fuel (one unit per
consumed character; a match always consumes at least one). -/
def removeEmptyParensFuel : Nat → Str → Str
  | 0, s => s
  | _ + 1, [] => []
  | fuel + 1, c :: rest =>
    match emptyParenAt (c :: rest) with
    | some (len + 1) => removeEmptyParensFuel fuel (rest.drop len)
    | some 0 => c :: removeEmptyParensFuel fuel rest
    | none => c :: removeEmptyParensFuel fuel rest

/-- `replace(/\s*\(\s*\)\s*/g, '')`. -/
def removeEmptyParens (s : Str) : Str := removeEmptyParensFuel s.length s

/-! ### `parseContentMetadata` -/

/-- `ContentMetadata` of `preferences.types.ts`. -/
structure ContentMetadata where
  cleanName : Str
  country : Option Str := none
  language : Option Str := none
  quality : Option Quality := none
  year : Option Nat := none
  season : Option Nat := none
  episode : Option Nat := none
deriving DecidableEq, Repr

/-- The country-extraction step (lines 55–74): prefix form first, else scan
of `COUNTRY_PATTERNS`; only the prefix form strips text. -/
def extractCountry (name : Str) : Option Str × Str :=
  let step1 : Option Str × Str :=
    match countryPrefixAt name with
    | some (code2, len) =>
      let code := code2.map upperChar
      if COUNTRIES_keys.contains code then (some code, jsTrim (name.drop len))
      else (none, name)
    | none => (none, name)
  match step1 with
  | (some c, clean) => (some c, clean)
  | (none, clean) =>
    match COUNTRY_PATTERNS.find? (fun cp => patTest cp.2 name) with
    | some cp => (some cp.1, clean)
    | none => (none, clean)

/-- The quality/language loops (lines 76–94): the first pattern whose test
succeeds on the original `name` wins; the match is stripped from the working
copy and the result trimmed. -/
def extractTagged {τ : Type} (pats : List (τ × WordPat)) (name clean : Str) :
    Option τ × Str :=
  match pats with
  | [] => (none, clean)
  | (t, p) :: rest =>
    if patTest p name then (some t, jsTrim (patRemoveFirst p clean))
    else extractTagged rest name clean

/-- The whole clean-up chain of lines 121–126. -/
def finalCleanup (s : Str) : Str :=
  jsTrim (removeEmptyParens (jsTrim (squeezeSpaces false (collapseSeps false s))))

/-- `parseContentMetadata` before the `cleanName || name` fallback: the
working clean name may still be empty here. -/
def parseContentMetadataCore (name : Str) : ContentMetadata :=
  let (country, clean1) := extractCountry name
  let (quality, clean2) := extractTagged QUALITY_PATTERNS name clean1
  let (language, clean3) := extractTagged LANGUAGE_PATTERNS name clean2
  let (year, clean4) :=
    match scanFind yearAt none name with
    | some (_, v) => (some v, jsTrim (scanRemove (lenOf yearAt) none clean3))
    | none => (none, clean3)
  let (season, episode, clean5) :=
    match scanFind seasonEpisodeAt none name with
    | some (_, sv, ev) => (some sv, ev, jsTrim (scanRemove (lenOf seasonEpisodeAt) none clean4))
    | none =>
      match scanFind seasonAt none name with
      | some (_, sv) => (some sv, none, jsTrim (scanRemove (lenOf seasonAt) none clean4))
      | none => (none, none, clean4)
  { cleanName := finalCleanup clean5
    country := country
    language := language
    quality := quality
    year := year
    season := season
    episode := episode }

/-- `parseContentMetadata` (contentParser.ts lines 52–137). -/
def parseContentMetadata (name : Str) : ContentMetadata :=
  let core := parseContentMetadataCore name
  { core with cleanName := if core.cleanName = [] then name else core.cleanName }

/-! ### `getContentKey` -/

inductive ContentType where
  | channel | movie | series
deriving DecidableEq, Repr

def natStr (n : Nat) : Str := (Nat.repr n).data

/-- `getContentKey` (contentParser.ts lines 142–155).  `toLowerCase` is
modelled for the ASCII range. -/
def getContentKey (name : Str) (type : ContentType) : Str :=
  let meta := parseContentMetadata name
  match type with
  | .channel => meta.cleanName.map lowerChar ++ '_' :: (meta.country.getD "unknown".toList)
  | .series => meta.cleanName.map lowerChar ++ '_' :: 's' :: natStr (meta.season.getD 0)
  | .movie => meta.cleanName.map lowerChar ++ '_' :: natStr (meta.year.getD 0)

/-! Sanity checks (concrete titles from the spec). -/

example : (parseContentMetadata "VFF Drama".toList).language = some "VFF".toList := by decide
example : (parseContentMetadata "Show VOSTFR".toList).language = some "VOSTFR".toList := by decide
example : (parseContentMetadata "FR: TF1".toList).country = some "FR".toList := by decide
example : (parseContentMetadata "FR: TF1".toList).cleanName = "TF1".toList := by decide
example : (parseContentMetadata "FHD".toList).cleanName = "FHD".toList := by decide
example : (parseContentMetadata "FHD".toList).quality = some Quality.FHD := by decide

/-! ### `selectBestQuality` (contentParser.ts lines 214–240) -/

/-- `Array.prototype.indexOf`: position of the first occurrence, `-1` if absent. -/
def jsIndexOf {α : Type} [DecidableEq α] (l : List α) (a : α) : Int :=
  go l 0
where
  go : List α → Nat → Int
  | [], _ => -1
  | x :: rest, i => if x = a then (i : Int) else go rest (i + 1)

/-- `const qualityOrder: Quality[] = ['4K', 'FHD', 'HD', 'SD']`. -/
def qualityOrder : List Quality := [Quality.q4K, Quality.FHD, Quality.HD, Quality.SD]

/-- `ContentVariant` of `preferences.types.ts`. -/
structure ContentVariant where
  id : Str
  url : Str
  quality : Option Quality := none
  language : Option Str := none
deriving DecidableEq, Repr

/-- The sort/scan key `a.quality ? qualityOrder.indexOf(a.quality) : 999`. -/
def qIdxOpt (q : Option Quality) : Int :=
  match q with
  | some q => jsIndexOf qualityOrder q
  | none => 999

/-- The comparator `(a, b) => aIdx - bIdx` of the source sorts ascending by
this key; as a relation: -/
def qLe (a b : Nat × Option Quality) : Prop := qIdxOpt a.2 ≤ qIdxOpt b.2

instance : DecidableRel qLe := fun _ _ => inferInstanceAs (Decidable (_ ≤ _))

instance : IsTotal (Nat × Option Quality) qLe := ⟨fun _ _ => Int.le_total _ _⟩

instance : IsTrans (Nat × Option Quality) qLe := ⟨fun _ _ _ => Int.le_trans⟩

/-- `selectBestQuality(variants, preferredQuality)`: stable ascending sort of
the (index, quality) pairs by key, then the first entry whose key is
`≥ preferredIndex`, else the first entry of the sorted list, else `0`.
JS `Array.prototype.sort` is a stable sort; a stable sort by a total preorder
has a unique result, here written as an insertion sort. -/
def selectBestQuality (variants : List ContentVariant) (preferredQuality : Quality) : Nat :=
  let preferredIndex : Int := jsIndexOf qualityOrder preferredQuality
  let sortedIndices :=
    ((variants.enum).map (fun p => (p.1, p.2.quality))).insertionSort qLe
  match sortedIndices.find? (fun x => decide (preferredIndex ≤ qIdxOpt x.2)) with
  | some x => x.1
  | none =>
    match sortedIndices with
    | x :: _ => x.1
    | [] => 0

/-! ### Channels, grouping, deduplication (deduplicator.ts) -/

inductive StreamType where
  | live | vod | series
deriving DecidableEq, Repr

/-- `Channel` of `channel.types.ts`, restricted to the fields the
normalization/deduplication pipeline reads (the optional TMDB/OMDb
enrichment fields are never consulted by it).  The optional `isLive` flag is
modelled as `Bool` (absent behaves as `false` in every `!channel.isLive` /
`ch.isLive` test of the source). -/
structure Channel where
  id : Str
  name : Str
  url : Str
  logo : Option Str := none
  group : Option Str := none
  tvgId : Option Str := none
  tvgName : Option Str := none
  epgUrl : Option Str := none
  catchup : Option Str := none
  catchupDays : Option Int := none
  catchupSource : Option Str := none
  userAgent : Option Str := none
  referrer : Option Str := none
  isLive : Bool := false
  streamType : Option StreamType := none
deriving DecidableEq, Repr

/-- `DeduplicatedContent` of `preferences.types.ts`. -/
structure DeduplicatedContent where
  id : Str
  name : Str
  logo : Option Str := none
  group : Option Str := none
  type : ContentType
  metadata : ContentMetadata
  variants : List ContentVariant
deriving DecidableEq, Repr

/-- One step of the grouping `Map`: `groups.set(key, (groups.get(key) ?? []) ++ [ch])`.
A JS `Map` keeps keys in insertion order and updates values in place, so the
association list appends new keys at the end and extends the first (unique)
entry of an existing key. -/
def insertGrouped (key : Str) (ch : Channel) :
    List (Str × List Channel) → List (Str × List Channel)
  | [] => [(key, [ch])]
  | (k, g) :: rest =>
    if k = key then (k, g ++ [ch]) :: rest else (k, g) :: insertGrouped key ch rest

/-- Build one `ContentVariant` from a grouped record (the `map` bodies of the
three dedup functions are identical). -/
def mkVariant (ch : Channel) : ContentVariant :=
  { id := ch.id
    url := ch.url
    quality := (parseContentMetadata ch.name).quality
    language := (parseContentMetadata ch.name).language }

/-- Emit one `DeduplicatedContent` per non-empty group
(`const first = group[0]; if (!first) continue;`). -/
def emitGroups (type : ContentType) (groups : List (Str × List Channel)) :
    List DeduplicatedContent :=
  groups.filterMap (fun kg =>
    match kg.2 with
    | [] => none
    | first :: _ =>
      let metadata := parseContentMetadata first.name
      some { id := first.id
             name := metadata.cleanName
             logo := first.logo
             group := first.group
             type := type
             metadata := metadata
             variants := kg.2.map mkVariant })

/-- `deduplicateChannels` (deduplicator.ts lines 8–48): group the live
records by their channel content key. -/
def deduplicateChannels (channels : List Channel) : List DeduplicatedContent :=
  let groups := channels.foldl
    (fun gs ch =>
      if !ch.isLive then gs
      else insertGrouped (getContentKey ch.name .channel) ch gs) []
  emitGroups .channel groups

/-- `deduplicateMovies` (deduplicator.ts lines 53–93): filter the VOD records,
then group by the movie content key. -/
def deduplicateMovies (channels : List Channel) : List DeduplicatedContent :=
  let movies := channels.filter (fun ch => !ch.isLive && ch.streamType = some .vod)
  let groups := movies.foldl
    (fun gs m => insertGrouped (getContentKey m.name .movie) m gs) []
  emitGroups .movie groups

/-- `deduplicateSeries` (deduplicator.ts lines 98–137): filter the series
records, then group by the series content key. -/
def deduplicateSeries (channels : List Channel) : List DeduplicatedContent :=
  let series := channels.filter (fun ch => !ch.isLive && ch.streamType = some .series)
  let groups := series.foldl
    (fun gs s => insertGrouped (getContentKey s.name .series) s gs) []
  emitGroups .series groups

/-! ### Preferences and `selectBestVariant` -/

structure ChannelPreferences where
  countries : List Str
  categories : List Str
  defaultQuality : Quality
deriving DecidableEq, Repr

structure MoviePreferences where
  preferredLanguage : Str
  subtitleLanguage : Str
  categories : List Str
deriving DecidableEq, Repr

structure SeriesPreferences where
  preferredLanguage : Str
  subtitleLanguage : Str
  categories : List Str
deriving DecidableEq, Repr

structure UserPreferences where
  onboardingCompleted : Bool
  channels : ChannelPreferences
  movies : MoviePreferences
  series : SeriesPreferences
deriving DecidableEq, Repr

/-- The value of `variants[idx] || variants[0]` (a variant object is always
truthy; an out-of-range access is `undefined`, hence falsy).  The inner
`variants[0]` of an empty list would be `undefined` in JS; it is modelled by
a junk variant, and every theorem below assumes a non-empty list. -/
def jsVariantAtOrFirst (variants : List ContentVariant) (idx : Nat) : ContentVariant :=
  match variants[idx]? with
  | some v => v
  | none => variants.headD { id := [], url := [] }

/-- `selectBestVariant` (deduplicator.ts lines 215–250). -/
def selectBestVariant (content : DeduplicatedContent) (preferences : UserPreferences) :
    ContentVariant :=
  let variants := content.variants
  if variants.length = 1 then variants.headD { id := [], url := [] }
  else
    match content.type with
    | .channel =>
      let quality := preferences.channels.defaultQuality
      let idx := selectBestQuality variants quality
      jsVariantAtOrFirst variants idx
    | .movie =>
      let prefLang := preferences.movies.preferredLanguage
      match variants.find? (fun v => v.language = some prefLang) with
      | some langMatch => langMatch
      | none => jsVariantAtOrFirst variants (selectBestQuality variants Quality.FHD)
    | .series =>
      let prefLang := preferences.series.preferredLanguage
      match variants.find? (fun v => v.language = some prefLang) with
      | some langMatch => langMatch
      | none => jsVariantAtOrFirst variants (selectBestQuality variants Quality.FHD)

/-! Sanity checks for variant selection. -/

section SanityVariants

def vOf (i : Nat) (q : Option Quality) : ContentVariant :=
  { id := natStr i, url := natStr i, quality := q }

def prefsWith (q : Quality) : UserPreferences :=
  { onboardingCompleted := false
    channels := { countries := [], categories := [], defaultQuality := q }
    movies := { preferredLanguage := "MULTI".toList, subtitleLanguage := "FR".toList, categories := [] }
    series := { preferredLanguage := "MULTI".toList, subtitleLanguage := "FR".toList, categories := [] } }

def contentWith (vs : List ContentVariant) : DeduplicatedContent :=
  { id := [], name := [], type := .channel, metadata := { cleanName := [] }, variants := vs }

-- preferred FHD, variants {HD, SD}: the HD variant is chosen
example :
    selectBestVariant (contentWith [vOf 0 (some .HD), vOf 1 (some .SD)]) (prefsWith .FHD) =
      vOf 0 (some .HD) := by decide

-- preferred FHD, variants {4K, SD}: the SD variant is chosen (not 4K!)
example :
    selectBestVariant (contentWith [vOf 0 (some .q4K), vOf 1 (some .SD)]) (prefsWith .FHD) =
      vOf 1 (some .SD) := by decide

end SanityVariants

/-! ### EPG: `getCurrentProgram` (useEPG hook) -/

/-- `EpgProgram` of `preferences.types.ts` (the `Date` fields `start`/`end`
duplicate the timestamps and are omitted). -/
structure EpgProgram where
  id : Str
  channelId : Str
  title : Str
  description : Str := []
  startTimestamp : Int
  endTimestamp : Int
  isLive : Bool := false
  progress : Int := 0
deriving DecidableEq, Repr

/-- `epgData.get(channelId)` for the insertion-ordered `Map` (unique keys). -/
def epgLookup (epgData : List (Str × List EpgProgram)) (channelId : Str) :
    Option (List EpgProgram) :=
  (epgData.find? (fun p => p.1 = channelId)).map (·.2)

/-- `getCurrentProgram` of the EPG hook:
`programs.find(p => now >= p.startTimestamp && now <= p.endTimestamp) || null`,
after the `!programs || programs.length === 0` guard.  `Date.now()` is the
explicit `now` argument. -/
def getCurrentProgram (epgData : List (Str × List EpgProgram)) (now : Int)
    (channelId : Str) : Option EpgProgram :=
  match epgLookup epgData channelId with
  | none => none
  | some programs =>
    if programs.length = 0 then none
    else programs.find? (fun p =>
      decide (now ≥ p.startTimestamp) && decide (now ≤ p.endTimestamp))

/-! ### EPG title/description decoding (`getShortEpg`, xtreamApi.ts 414–439)

The transformation applied (identically) to `listing.title` and
`listing.description`:
if the string is non-empty (truthy), matches `/^[A-Za-z0-9+/=]+$/` and has
length `> 4`, it is passed to `atob`; if that throws, the raw string is kept;
if the decoded bytes match `/[\x00-\x08\x0E-\x1F]/` the raw string is kept;
else the bytes are reinterpreted as UTF-8 via `decodeURIComponent(escape(…))`,
keeping the raw string if that throws. -/

/-- The base64 alphabet class `[A-Za-z0-9+/=]`. -/
def b64AlphaChar (c : Char) : Bool :=
  ('A' ≤ c && c ≤ 'Z') || ('a' ≤ c && c ≤ 'z') || ('0' ≤ c && c ≤ '9') ||
  c = '+' || c = '/' || c = '='

/-- ASCII whitespace stripped by forgiving-base64 (`atob`). -/
def asciiWsChar (c : Char) : Bool :=
  c = ' ' || c = '\t' || c = '\n' || c = '\x0c' || c = '\r'

/-- Value of one base64 digit (`=` and anything else: failure). -/
def b64Val (c : Char) : Option Nat :=
  if 'A' ≤ c ∧ c ≤ 'Z' then some (c.toNat - 'A'.toNat)
  else if 'a' ≤ c ∧ c ≤ 'z' then some (c.toNat - 'a'.toNat + 26)
  else if '0' ≤ c ∧ c ≤ '9' then some (c.toNat - '0'.toNat + 52)
  else if c = '+' then some 62
  else if c = '/' then some 63
  else none

def mapB64 : Str → Option (List Nat)
  | [] => some []
  | c :: rest =>
    match b64Val c with
    | some v => (mapB64 rest).map (v :: ·)
    | none => none

/-- Sextet groups to bytes: 4 sextets → 3 bytes, a trailing pair → 1 byte,
a trailing triple → 2 bytes (leftover bits discarded, as forgiving-base64
prescribes).  A trailing singleton cannot occur (length `% 4 ≠ 1`). -/
def b64Bytes : List Nat → List Nat
  | a :: b :: c :: d :: rest =>
    (a * 4 + b / 16) :: ((b % 16) * 16 + c / 4) :: ((c % 4) * 64 + d) :: b64Bytes rest
  | [a, b] => [a * 4 + b / 16]
  | [a, b, c] => [a * 4 + b / 16, (b % 16) * 16 + c / 4]
  | _ => []

/-- Strip the `=` padding: only when the length is a multiple of 4, and at
most two trailing `=`. -/
def b64StripPad (s : Str) : Str :=
  if s.length % 4 = 0 then
    match s.reverse with
    | '=' :: '=' :: rest => rest.reverse
    | '=' :: rest => rest.reverse
    | _ => s
  else s

/-- `atob` (WHATWG forgiving-base64 decode); `none` models the thrown
`InvalidCharacterError`. -/
def atobJs (input : Str) : Option (List Nat) :=
  let data := b64StripPad (input.filter (fun c => !asciiWsChar c))
  if data.length % 4 = 1 then none
  else
    match mapB64 data with
    | some sextets => some (b64Bytes sextets)
    | none => none

/-- A byte matched by the control-character regex `/[\x00-\x08\x0E-\x1F]/`
of the source (note: `\x09`–`\x0D` and `\x7F` are not in the class). -/
def badCtrlByte (b : Nat) : Bool := b ≤ 8 || (14 ≤ b && b ≤ 31)

def utf8Cont (b : Nat) : Bool := 0x80 ≤ b && b ≤ 0xbf

/-- Strict UTF-8 decoding of a byte sequence into code points; `none` models
the `URIError` thrown by `decodeURIComponent` on malformed UTF-8 (the ECMA-262
Decode algorithm rejects overlong forms, surrogates and values above
U+10FFFF). -/
def utf8DecodeStrict : List Nat → Option (List Nat)
  | [] => some []
  | b :: rest =>
    if b ≤ 0x7f then (utf8DecodeStrict rest).map (b :: ·)
    else if 0xc2 ≤ b ∧ b ≤ 0xdf then
      match rest with
      | b2 :: rest2 =>
        if utf8Cont b2 then
          (utf8DecodeStrict rest2).map (((b - 0xc0) * 64 + (b2 - 0x80)) :: ·)
        else none
      | [] => none
    else if 0xe0 ≤ b ∧ b ≤ 0xef then
      match rest with
      | b2 :: b3 :: rest2 =>
        let lo2 := if b = 0xe0 then 0xa0 else 0x80
        let hi2 := if b = 0xed then 0x9f else 0xbf
        if (lo2 ≤ b2 ∧ b2 ≤ hi2) ∧ utf8Cont b3 then
          (utf8DecodeStrict rest2).map
            (((b - 0xe0) * 4096 + (b2 - 0x80) * 64 + (b3 - 0x80)) :: ·)
        else none
      | _ => none
    else if 0xf0 ≤ b ∧ b ≤ 0xf4 then
      match rest with
      | b2 :: b3 :: b4 :: rest2 =>
        let lo2 := if b = 0xf0 then 0x90 else 0x80
        let hi2 := if b = 0xf4 then 0x8f else 0xbf
        if (lo2 ≤ b2 ∧ b2 ≤ hi2) ∧ utf8Cont b3 ∧ utf8Cont b4 then
          (utf8DecodeStrict rest2).map
            (((b - 0xf0) * 262144 + (b2 - 0x80) * 4096 + (b3 - 0x80) * 64 + (b4 - 0x80)) :: ·)
        else none
      | _ => none
    else none

/-- The whole per-string decode step of `getShortEpg` (applied to the title
and, separately, to the description). -/
def decodeEpgText (text : Str) : Str :=
  if text ≠ [] ∧ text.all b64AlphaChar ∧ 4 < text.length then
    match atobJs text with
    | none => text
    | some bytes =>
      if bytes.any badCtrlByte then text
      else
        match utf8DecodeStrict bytes with
        | none => text
        | some cps => cps.map Char.ofNat
  else text

/-! Sanity checks for the decoder. -/

example : decodeEpgText "SGVsbG8=".toList = "Hello".toList := by decide
example : decodeEpgText "Hello World".toList = "Hello World".toList := by decide
example : decodeEpgText "YWIJY2Q=".toList = ['a', 'b', '\t', 'c', 'd'] := by decide
example : decodeEpgText "//////".toList = "//////".toList := by decide
example : decodeEpgText "w6l0w6k=".toList = "été".toList := by decide

/-! ### M3U parsing (`m3uParser.ts`) -/

/-- `content.split(/\r?\n/)`. -/
def splitLines : Str → List Str
  | [] => [[]]
  | '\r' :: '\n' :: rest => [] :: splitLines rest
  | '\n' :: rest => [] :: splitLines rest
  | c :: rest =>
    match splitLines rest with
    | l :: ls => (c :: l) :: ls
    | [] => [[c]]

/-- UTF-16 code units of one character (`charCodeAt` sees surrogate pairs). -/
def utf16Units (c : Char) : List Nat :=
  if c.toNat < 0x10000 then [c.toNat]
  else [0xd800 + (c.toNat - 0x10000) / 1024, 0xdc00 + (c.toNat - 0x10000) % 1024]

def jsCodeUnits (s : Str) : List Nat := (s.map utf16Units).flatten

/-- `ToInt32` (the effect of `hash & hash` and of `<<` in JS). -/
def toInt32 (n : Int) : Int :=
  let m := ((n % 4294967296) + 4294967296) % 4294967296
  if m ≥ 2147483648 then m - 4294967296 else m

/-- One iteration of the hash loop: `hash = ((hash << 5) - hash) + char;
hash = hash & hash`. -/
def hashStep (h : Int) (u : Nat) : Int := toInt32 (toInt32 (h * 32) - h + u)

def digit36 (d : Nat) : Char :=
  if d < 10 then Char.ofNat ('0'.toNat + d) else Char.ofNat ('a'.toNat + d - 10)

/-- `Math.abs(hash).toString(36)` for a natural number, with structural fuel. -/
def natTo36Aux : Nat → Nat → Str → Str
  | 0, _, acc => acc
  | _ + 1, m, acc =>
    if m < 36 then digit36 m :: acc
    else natTo36Aux m (m / 36) (digit36 (m % 36) :: acc)

def natTo36 (n : Nat) : Str := natTo36Aux (n + 1) n []

/-- `generateChannelId(name, url)` (m3uParser.ts lines 40–49). -/
def generateChannelId (name url : Str) : Str :=
  let str := name ++ '-' :: url
  natTo36 ((jsCodeUnits str).foldl hashStep 0).natAbs

/-- `parseInt(s, 10)`: skip whitespace, optional sign, leading digits;
`none` models `NaN`. -/
def jsParseInt (s : Str) : Option Int :=
  let t := s.dropWhile jsSpace
  let (sign, t) : Int × Str :=
    match t with
    | '-' :: r => (-1, r)
    | '+' :: r => (1, r)
    | _ => (1, t)
  let ds := t.takeWhile asciiDigit
  if ds = [] then none else some (sign * digitsVal ds)

/-- Match of `/key="([^"]*)"/i` at the current position. -/
def attrValAt (key : Str) (s : Str) : Option Str :=
  if ciStarts (key ++ ['=', '"']) s then
    let r := s.drop (key.length + 2)
    let v := r.takeWhile (fun c => c ≠ '"')
    match r.drop v.length with
    | '"' :: _ => some v
    | _ => none
  else none

/-- Leftmost position where a plain (boundary-free) matcher succeeds. -/
def scanFirst {β : Type} (m : Str → Option β) : Str → Option β
  | [] => none
  | c :: rest =>
    match m (c :: rest) with
    | some r => some r
    | none => scanFirst m rest

/-- `extractAttribute(attributes, regex)`: first match, trimmed,
`'' || undefined` collapsing an empty value to `undefined`. -/
def extractAttribute (attributes : Str) (key : Str) : Option Str :=
  match scanFirst (attrValAt key) attributes with
  | some v =>
    let t := jsTrim v
    if t = [] then none else some t
  | none => none

/-- Result of `parseExtinfAttributes` (attributes, name, duration). -/
structure ExtinfParts where
  attributes : Str
  name : Str
  duration : Int
deriving DecidableEq, Repr

/-- `EXTINF_REGEX = /^#EXTINF:\s*(-?\d+)(?:\s+(.*))?$/` applied to the line;
on failure the source returns `{attributes: '', name: '', duration: -1}`. -/
def matchExtinf (line : Str) : Option (Int × Str) :=
  if List.isPrefixOf "#EXTINF:".toList line then
    let r1 := line.drop 8
    let r2 := r1.dropWhile jsSpace
    let (sign, r3) : Int × Str :=
      match r2 with
      | '-' :: r => (-1, r)
      | _ => (1, r2)
    let ds := r3.takeWhile asciiDigit
    if ds = [] then none
    else
      let r4 := r3.drop ds.length
      match r4 with
      | [] => some (sign * digitsVal ds, [])
      | c :: _ =>
        if jsSpace c then some (sign * digitsVal ds, r4.dropWhile jsSpace)
        else none
  else none

/-- Split at the last comma (`rest.lastIndexOf(',')`). -/
def splitLastComma (s : Str) : Option (Str × Str) :=
  let rev := s.reverse
  let afterRev := rev.takeWhile (fun c => c ≠ ',')
  match rev.drop afterRev.length with
  | ',' :: beforeRev => some (beforeRev.reverse, afterRev.reverse)
  | _ => none

/-- `parseExtinfAttributes` (m3uParser.ts lines 54–74). -/
def parseExtinfAttributes (line : Str) : ExtinfParts :=
  match matchExtinf line with
  | none => { attributes := [], name := [], duration := -1 }
  | some (duration, rest) =>
    match splitLastComma rest with
    | some (before, after) =>
      { attributes := jsTrim before, name := jsTrim after, duration := duration }
    | none => { attributes := rest, name := rest, duration := duration }

/-- `String.prototype.includes`: `needle` occurs as a contiguous substring. -/
def hasSub (needle : Str) : Str → Bool
  | [] => needle = []
  | c :: rest => List.isPrefixOf needle (c :: rest) || hasSub needle rest

/-- `determineStreamType(url, name)` (m3uParser.ts lines 97–118). -/
def determineStreamType (url name : Str) : StreamType :=
  let lowerUrl := url.map lowerChar
  let lowerName := name.map lowerChar
  if [".mp4".toList, ".mkv".toList, ".avi".toList, ".mov".toList, ".wmv".toList].any
      (fun ext => List.isSuffixOf ext lowerUrl) then .vod
  else if hasSub "/series/".toList lowerUrl ||
      hasSub "s0".toList lowerName || hasSub "e0".toList lowerName then .series
  else if hasSub "/movie/".toList lowerUrl ||
      hasSub "/vod/".toList lowerUrl then .vod
  else .live

/-- `parseChannel(data, epgUrl)` (m3uParser.ts lines 123–155).  The `NaN`
value of an unparsable `catchup-days` is modelled as `none`. -/
def parseChannel (data : ExtinfParts) (url : Str) (epgUrl : Option Str) : Channel :=
  let attributes := data.attributes
  let name := data.name
  let tvgId := extractAttribute attributes "tvg-id".toList
  let tvgName := extractAttribute attributes "tvg-name".toList
  let logo := extractAttribute attributes "tvg-logo".toList
  let group := extractAttribute attributes "group-title".toList
  let catchup := extractAttribute attributes "catchup".toList
  let catchupDays := extractAttribute attributes "catchup-days".toList
  let catchupSource := extractAttribute attributes "catchup-source".toList
  let userAgent := extractAttribute attributes "user-agent".toList
  let referrer := extractAttribute attributes "referrer".toList
  let streamType := determineStreamType url name
  { id := generateChannelId name url
    name := if name ≠ [] then name else tvgName.getD "Unknown Channel".toList
    url := url
    logo := logo
    group := some (group.getD "Non classé".toList)
    tvgId := tvgId
    tvgName := tvgName
    epgUrl := epgUrl
    catchup := catchup
    catchupDays := catchupDays.bind jsParseInt
    catchupSource := catchupSource
    userAgent := userAgent
    referrer := referrer
    isLive := streamType = .live
    streamType := some streamType }

structure M3UHeader where
  urlTvg : Option Str := none
  refresh : Option Str := none
deriving DecidableEq, Repr

/-- `parseHeader` (m3uParser.ts lines 87–92). -/
def parseHeader (line : Str) : M3UHeader :=
  { urlTvg := extractAttribute line "url-tvg".toList
    refresh := extractAttribute line "refresh".toList }

structure Category where
  id : Str
  name : Str
  channelCount : Nat
deriving DecidableEq, Repr

/-- `categoryMap.set(group, (categoryMap.get(group) || 0) + 1)`. -/
def bumpCount (g : Str) : List (Str × Nat) → List (Str × Nat)
  | [] => [(g, 1)]
  | (k, n) :: rest => if k = g then (k, n + 1) :: rest else (k, n) :: bumpCount g rest

/-- Stable insertion step for a boolean "less or equal" test. -/
def insertLeB {α : Type} (le : α → α → Bool) (a : α) : List α → List α
  | [] => [a]
  | b :: l => if le a b then a :: b :: l else b :: insertLeB le a l

/-- Stable sort (models the stable JS `Array.prototype.sort`). -/
def sortLeB {α : Type} (le : α → α → Bool) : List α → List α
  | [] => []
  | x :: xs => insertLeB le x (sortLeB le xs)

/-- Code-point lexicographic order, modelling `localeCompare` ordering for
the ASCII category names of this code base. -/
def lexLeB : Str → Str → Bool
  | [], _ => true
  | _ :: _, [] => false
  | a :: as, b :: bs =>
    if a.toNat < b.toNat then true
    else if b.toNat < a.toNat then false
    else lexLeB as bs

/-- `name.toLowerCase().replace(/\s+/g, '-')` (category ids). -/
def hyphenSpaces : Bool → Str → Str
  | _, [] => []
  | prevWs, c :: rest =>
    if jsSpace c then
      if prevWs then hyphenSpaces true rest else '-' :: hyphenSpaces true rest
    else c :: hyphenSpaces false rest

/-- `extractCategories` (m3uParser.ts lines 160–173). -/
def extractCategories (channels : List Channel) : List Category :=
  let counts := channels.foldl
    (fun m ch => bumpCount (ch.group.getD "Non classé".toList) m) []
  sortLeB (fun a b => lexLeB a.name b.name)
    (counts.map (fun kn =>
      { id := hyphenSpaces false (kn.1.map lowerChar)
        name := kn.1
        channelCount := kn.2 }))

structure Playlist where
  id : Str
  name : Str
  source : Str
  channels : List Channel
  categories : List Category
  addedAt : Int
  lastUpdated : Option Int := none
deriving DecidableEq, Repr

/-- The loop state of `parseM3U`. -/
structure M3ULoopState where
  header : M3UHeader
  currentData : Option ExtinfParts
  channels : List Channel
deriving DecidableEq, Repr

/-- One iteration of the `parseM3U` line loop (lines 185–223). -/
def m3uStep (st : M3ULoopState) (rawLine : Str) : M3ULoopState :=
  let line := jsTrim rawLine
  if line = [] then st
  else if List.isPrefixOf "#EXTM3U".toList line then
    { st with header := parseHeader line }
  else if List.isPrefixOf "#EXTINF:".toList line then
    { st with currentData := some (parseExtinfAttributes line) }
  else if line.head? = some '#' then st
  else
    match st.currentData with
    | some cd =>
      if List.isPrefixOf "http".toList line || List.isPrefixOf "rtmp".toList line ||
          List.isPrefixOf "rtsp".toList line then
        { st with
          channels := st.channels ++ [parseChannel cd line st.header.urlTvg]
          currentData := none }
      else st
    | none => st

/-- The channel list produced by the `parseM3U` loop over a list of lines. -/
def m3uChannels (lines : List Str) : List Channel :=
  (lines.foldl m3uStep { header := {}, currentData := none, channels := [] }).channels

/-- `parseM3U(content, sourceName)` (m3uParser.ts lines 178–235).  The two
impure reads (`Date.now()` used for the playlist id string and the
`addedAt` field) are explicit arguments. -/
def parseM3U (content : Str) (sourceName : Str) (nowStr : Str) (nowMs : Int) : Playlist :=
  let lines := splitLines content
  let channels := m3uChannels lines
  { id := generateChannelId sourceName nowStr
    name := sourceName
    source := "file".toList
    channels := channels
    categories := extractCategories channels
    addedAt := nowMs }

/-! Sanity check: the spec's M3U scenario. -/

example :
    (m3uChannels (splitLines
      ("#EXTINF:-1 tvg-logo=\x22x.png\x22 group-title=\x22News\x22,FR | TF1\nhttp://host/live/1.m3u8").toList)).map
        (fun ch => (ch.name, ch.group, ch.isLive, ch.streamType, ch.url)) =
      [("FR | TF1".toList, some "News".toList, true, some .live, "http://host/live/1.m3u8".toList)] := by
  decide

/-! ## Helper lemmas: `selectBestQuality` -/

/-- In a pairwise-sorted list, the first element satisfying `p` is related to
every element satisfying `p`. -/
lemma find?_sorted_rel {α : Type} {r : α → α → Prop} {p : α → Bool} {l : List α} {x : α}
    (hrefl : ∀ a, r a a) (hs : l.Pairwise r) (hf : l.find? p = some x) :
    ∀ y ∈ l, p y = true → r x y := by
  induction l with
  | nil => simp at hf
  | cons a as ih =>
    rw [List.find?_cons] at hf
    cases hpa : p a with
    | true =>
      rw [hpa] at hf
      have hax : a = x := Option.some.inj hf
      subst hax
      intro y hy _
      rcases List.mem_cons.mp hy with rfl | hmem
      · exact hrefl y
      · exact List.rel_of_pairwise_cons hs hmem
    | false =>
      rw [hpa] at hf
      intro y hy hpy
      rcases List.mem_cons.mp hy with rfl | hmem
      · rw [hpy] at hpa; cases hpa
      · exact ih hs.of_cons hf y hmem hpy

lemma mem_enumFrom_of_mem {α : Type} {a : α} {l : List α} (h : a ∈ l) :
    ∀ n : Nat, ∃ i, (i, a) ∈ l.enumFrom n := by
  induction l with
  | nil => simp at h
  | cons x xs ih =>
    intro n
    rcases List.mem_cons.mp h with rfl | hmem
    · exact ⟨n, by rw [List.enumFrom_cons]; exact List.mem_cons_self _ _⟩
    · obtain ⟨i, hi⟩ := ih hmem (n + 1)
      exact ⟨i, by rw [List.enumFrom_cons]; exact List.mem_cons_of_mem _ hi⟩

lemma mem_enum_of_mem {α : Type} {a : α} {l : List α} (h : a ∈ l) :
    ∃ i, (i, a) ∈ l.enum :=
  mem_enumFrom_of_mem h 0

/-- The (index, quality) pairs actually sorted by `selectBestQuality`. -/
def qPairs (variants : List ContentVariant) : List (Nat × Option Quality) :=
  (variants.enum).map (fun p => (p.1, p.2.quality))

lemma selectBestQuality_eq (variants : List ContentVariant) (pref : Quality) :
    selectBestQuality variants pref =
      match ((qPairs variants).insertionSort qLe).find?
          (fun x => decide (jsIndexOf qualityOrder pref ≤ qIdxOpt x.2)) with
      | some x => x.1
      | none =>
        match (qPairs variants).insertionSort qLe with
        | x :: _ => x.1
        | [] => 0 := rfl

/-- Elements of the sorted pair list name actual variants. -/
lemma qPairs_elt {variants : List ContentVariant} {x : Nat × Option Quality}
    (hx : x ∈ (qPairs variants).insertionSort qLe) :
    ∃ v, variants[x.1]? = some v ∧ v.quality = x.2 := by
  have hx' : x ∈ qPairs variants :=
    ((List.perm_insertionSort qLe (qPairs variants)).mem_iff).mp hx
  obtain ⟨q, hq, rfl⟩ := List.mem_map.mp hx'
  obtain ⟨hlt, hget⟩ := List.mem_enum hq
  refine ⟨variants[q.1], List.getElem?_eq_some.mpr ⟨hlt, rfl⟩, ?_⟩
  rw [← hget]

/-- Every variant appears in the sorted pair list. -/
lemma qPairs_surj {variants : List ContentVariant} {w : ContentVariant}
    (hw : w ∈ variants) :
    ∃ i, (i, w.quality) ∈ (qPairs variants).insertionSort qLe := by
  obtain ⟨i, hi⟩ := mem_enum_of_mem hw
  refine ⟨i, ((List.perm_insertionSort qLe (qPairs variants)).mem_iff).mpr ?_⟩
  exact List.mem_map.mpr ⟨(i, w), hi, rfl⟩

lemma qLe_refl (a : Nat × Option Quality) : qLe a a := le_refl (qIdxOpt a.2)

/-- Behaviour of `selectBestQuality` on a non-empty list: it returns the index
of a variant; that variant is quality-minimal (by the sort key, untagged = 999)
among those whose key is `≥` the preferred index if any such variant exists,
and quality-minimal among all variants otherwise. -/
lemma selectBestQuality_spec (variants : List ContentVariant) (pref : Quality)
    (hne : variants ≠ []) :
    ∃ v, variants[selectBestQuality variants pref]? = some v ∧
      (∀ w ∈ variants, jsIndexOf qualityOrder pref ≤ qIdxOpt w.quality →
        jsIndexOf qualityOrder pref ≤ qIdxOpt v.quality ∧
          qIdxOpt v.quality ≤ qIdxOpt w.quality) ∧
      ((∀ w ∈ variants, ¬ jsIndexOf qualityOrder pref ≤ qIdxOpt w.quality) →
        ∀ w ∈ variants, qIdxOpt v.quality ≤ qIdxOpt w.quality) := by
  have hsorted : List.Sorted qLe ((qPairs variants).insertionSort qLe) :=
    List.sorted_insertionSort qLe (qPairs variants)
  rw [selectBestQuality_eq]
  cases hfind : ((qPairs variants).insertionSort qLe).find?
      (fun x => decide (jsIndexOf qualityOrder pref ≤ qIdxOpt x.2)) with
  | some x =>
    obtain ⟨v, hv, hvq⟩ := qPairs_elt (List.mem_of_find?_eq_some hfind)
    have hxp : jsIndexOf qualityOrder pref ≤ qIdxOpt x.2 := by
      have := List.find?_some hfind
      exact of_decide_eq_true this
    refine ⟨v, hv, ?_, ?_⟩
    · intro w hw hwp
      obtain ⟨i, hiw⟩ := qPairs_surj hw
      have hrel : qLe x (i, w.quality) := by
        refine find?_sorted_rel (r := qLe) qLe_refl hsorted hfind _ hiw ?_
        exact decide_eq_true hwp
      exact ⟨hvq ▸ hxp, hvq ▸ hrel⟩
    · intro hnone
      obtain ⟨v', hv', hvq'⟩ := qPairs_elt (List.mem_of_find?_eq_some hfind)
      exact absurd (hvq' ▸ hxp) (hnone v' (List.getElem?_mem hv'))
  | none =>
    have hall : ∀ y ∈ (qPairs variants).insertionSort qLe,
        ¬ (decide (jsIndexOf qualityOrder pref ≤ qIdxOpt y.2) = true) :=
      List.find?_eq_none.mp hfind
    have hnosat : ∀ w ∈ variants, ¬ jsIndexOf qualityOrder pref ≤ qIdxOpt w.quality := by
      intro w hw hwp
      obtain ⟨i, hiw⟩ := qPairs_surj hw
      exact hall _ hiw (decide_eq_true hwp)
    cases hsort : (qPairs variants).insertionSort qLe with
    | nil =>
      exfalso
      have hlen : ((qPairs variants).insertionSort qLe).length = variants.length := by
        rw [(List.perm_insertionSort qLe (qPairs variants)).length_eq]
        simp [qPairs]
      rw [hsort] at hlen
      exact hne (List.length_eq_zero.mp hlen.symm)
    | cons x rest =>
      obtain ⟨v, hv, hvq⟩ := qPairs_elt (hsort ▸ List.mem_cons_self x rest)
      refine ⟨v, hv, ?_, ?_⟩
      · intro w hw hwp
        exact absurd hwp (hnosat w hw)
      · intro _ w hw
        obtain ⟨i, hiw⟩ := qPairs_surj hw
        rw [hsort] at hiw
        rcases List.mem_cons.mp hiw with heq | hmem
        · rw [hvq, ← heq]
        · have : qLe x (i, w.quality) :=
            List.rel_of_pairwise_cons (hsort ▸ hsorted) hmem
          exact hvq ▸ this

/-- Unfolding of the channel branch of `selectBestVariant`. -/
lemma selectBestVariant_channel (content : DeduplicatedContent) (prefs : UserPreferences)
    (htype : content.type = .channel) (hne1 : content.variants.length ≠ 1) :
    selectBestVariant content prefs =
      jsVariantAtOrFirst content.variants
        (selectBestQuality content.variants prefs.channels.defaultQuality) := by
  unfold selectBestVariant
  rw [if_neg hne1, htype]

lemma jsVariantAtOrFirst_of_some {variants : List ContentVariant} {idx : Nat}
    {v : ContentVariant} (h : variants[idx]? = some v) :
    jsVariantAtOrFirst variants idx = v := by
  unfold jsVariantAtOrFirst
  rw [h]

lemma jsVariantAtOrFirst_mem {variants : List ContentVariant} (idx : Nat)
    (hne : variants ≠ []) : jsVariantAtOrFirst variants idx ∈ variants := by
  unfold jsVariantAtOrFirst
  cases h : variants[idx]? with
  | some v => exact List.getElem?_mem h
  | none =>
    cases variants with
    | nil => exact absurd rfl hne
    | cons x xs => exact List.mem_cons_self x xs

lemma headD_mem {α : Type} {l : List α} (d : α) (hne : l ≠ []) : l.headD d ∈ l := by
  cases l with
  | nil => exact absurd rfl hne
  | cons x xs => exact List.mem_cons_self x xs

/-- Unfolding of the movie branch of `selectBestVariant`. -/
lemma selectBestVariant_movie (content : DeduplicatedContent) (prefs : UserPreferences)
    (htype : content.type = .movie) (hne1 : content.variants.length ≠ 1) :
    selectBestVariant content prefs =
      match content.variants.find?
          (fun v => v.language = some prefs.movies.preferredLanguage) with
      | some langMatch => langMatch
      | none =>
        jsVariantAtOrFirst content.variants
          (selectBestQuality content.variants Quality.FHD) := by
  unfold selectBestVariant
  rw [if_neg hne1, htype]

/-- Unfolding of the series branch of `selectBestVariant`. -/
lemma selectBestVariant_series (content : DeduplicatedContent) (prefs : UserPreferences)
    (htype : content.type = .series) (hne1 : content.variants.length ≠ 1) :
    selectBestVariant content prefs =
      match content.variants.find?
          (fun v => v.language = some prefs.series.preferredLanguage) with
      | some langMatch => langMatch
      | none =>
        jsVariantAtOrFirst content.variants
          (selectBestQuality content.variants Quality.FHD) := by
  unfold selectBestVariant
  rw [if_neg hne1, htype]

/-- Unfolding of the single-variant branch of `selectBestVariant`. -/
lemma selectBestVariant_single (content : DeduplicatedContent) (prefs : UserPreferences)
    (h1 : content.variants.length = 1) :
    selectBestVariant content prefs = content.variants.headD { id := [], url := [] } := by
  unfold selectBestVariant
  rw [if_pos h1]

/-! ## Claim C1 -/

/-- C1 counterexample input: a channel with a 4K variant and an SD variant,
user preference FHD. -/
def c1Content : DeduplicatedContent :=
  contentWith [vOf 0 (some Quality.q4K), vOf 1 (some Quality.SD)]

/-- C1 is false as stated: with preferred tier FHD and variants {4K, SD},
the only variant whose tier is ≥ FHD (sort key ≤ preferred index) is the 4K
one, yet `selectBestVariant` returns the SD variant. -/
theorem C1_counterexample :
    selectBestVariant c1Content (prefsWith Quality.FHD) = vOf 1 (some Quality.SD) ∧
    selectBestVariant c1Content (prefsWith Quality.FHD) ≠ vOf 0 (some Quality.q4K) ∧
    qIdxOpt (vOf 0 (some Quality.q4K)).quality ≤
      jsIndexOf qualityOrder (prefsWith Quality.FHD).channels.defaultQuality ∧
    ¬ qIdxOpt (vOf 1 (some Quality.SD)).quality ≤
      jsIndexOf qualityOrder (prefsWith Quality.FHD).channels.defaultQuality := by
  refine ⟨by decide, by decide, by decide, by decide⟩

/-- C1 (amended): for channel content with ≥ 2 variants, `selectBestVariant`
returns one of the variants; ranking by the fixed order 4K > FHD > HD > SD
(sort key = position in that order, untagged variants keying 999 and hence
after all tagged ones), the result has the best quality among the variants
whose tier is equal to or below the preferred tier whenever such a variant
exists, and the best quality overall when every variant is strictly above
the preference. -/
theorem C1_amended_selectBestVariant_channel (content : DeduplicatedContent)
    (prefs : UserPreferences) (htype : content.type = ContentType.channel)
    (hlen : 2 ≤ content.variants.length) :
    ∃ v, selectBestVariant content prefs = v ∧ v ∈ content.variants ∧
      (∀ w ∈ content.variants,
        jsIndexOf qualityOrder prefs.channels.defaultQuality ≤ qIdxOpt w.quality →
          jsIndexOf qualityOrder prefs.channels.defaultQuality ≤ qIdxOpt v.quality ∧
          qIdxOpt v.quality ≤ qIdxOpt w.quality) ∧
      ((∀ w ∈ content.variants,
          ¬ jsIndexOf qualityOrder prefs.channels.defaultQuality ≤ qIdxOpt w.quality) →
        ∀ w ∈ content.variants, qIdxOpt v.quality ≤ qIdxOpt w.quality) := by
  have hne : content.variants ≠ [] := by
    intro h
    rw [h] at hlen
    exact absurd hlen (by decide)
  have hne1 : content.variants.length ≠ 1 := by omega
  obtain ⟨v, hv, h1, h2⟩ :=
    selectBestQuality_spec content.variants prefs.channels.defaultQuality hne
  refine ⟨v, ?_, List.getElem?_mem hv, h1, h2⟩
  rw [selectBestVariant_channel content prefs htype hne1]
  exact jsVariantAtOrFirst_of_some hv

/-- Witness for C1 (amended) at the counterexample input. -/
theorem C1_amended_witness :
    selectBestVariant c1Content (prefsWith Quality.FHD) ∈ c1Content.variants := by
  obtain ⟨v, he, hm, -, -⟩ :=
    C1_amended_selectBestVariant_channel c1Content (prefsWith Quality.FHD) rfl (by decide)
  rw [he]
  exact hm

/-! ## Claim C4 -/

/-- C4: for a channel whose variants carry exactly the tiers {HD, SD} and a
user preferring FHD, `selectBestVariant` returns an HD variant. -/
theorem C4_quality_fallback (content : DeduplicatedContent) (prefs : UserPreferences)
    (htype : content.type = ContentType.channel)
    (hpref : prefs.channels.defaultQuality = Quality.FHD)
    (hall : ∀ w ∈ content.variants,
      w.quality = some Quality.HD ∨ w.quality = some Quality.SD)
    (hHD : ∃ w ∈ content.variants, w.quality = some Quality.HD)
    (hSD : ∃ w ∈ content.variants, w.quality = some Quality.SD) :
    (selectBestVariant content prefs).quality = some Quality.HD := by
  obtain ⟨wh, hwh, hwhq⟩ := hHD
  obtain ⟨ws, hws, hwsq⟩ := hSD
  have hne : content.variants ≠ [] := by
    intro h
    rw [h] at hwh
    exact absurd hwh (List.not_mem_nil wh)
  have hne1 : content.variants.length ≠ 1 := by
    intro h
    obtain ⟨x, hx⟩ := List.length_eq_one.mp h
    rw [hx] at hwh hws
    rw [List.mem_singleton] at hwh hws
    rw [hwh] at hwhq
    rw [hws] at hwsq
    exact absurd (hwhq.symm.trans hwsq) (by decide)
  obtain ⟨v, hv, h1, -⟩ :=
    selectBestQuality_spec content.variants prefs.channels.defaultQuality hne
  have hres : selectBestVariant content prefs = v := by
    rw [selectBestVariant_channel content prefs htype hne1]
    exact jsVariantAtOrFirst_of_some hv
  have hkeyw : jsIndexOf qualityOrder prefs.channels.defaultQuality ≤ qIdxOpt wh.quality := by
    rw [hpref, hwhq]
    decide
  obtain ⟨-, hvw⟩ := h1 wh hwh hkeyw
  rcases hall v (List.getElem?_mem hv) with hq | hq
  · rw [hres]
    exact hq
  · exfalso
    rw [hq, hwhq] at hvw
    exact absurd hvw (by decide)

/-- Witness for C4 at variants [HD, SD]. -/
theorem C4_witness :
    (selectBestVariant (contentWith [vOf 0 (some Quality.HD), vOf 1 (some Quality.SD)])
        (prefsWith Quality.FHD)).quality = some Quality.HD :=
  C4_quality_fallback _ _ rfl rfl (by decide) (by decide) (by decide)

/-! ## Claim C10 -/

/-- C10: on any content with a non-empty variant list, `selectBestVariant`
returns one of the content's variants, and `selectBestQuality` returns an
in-range index, for every preference value. -/
theorem C10_selection_safety :
    (∀ (content : DeduplicatedContent) (prefs : UserPreferences),
        content.variants ≠ [] → selectBestVariant content prefs ∈ content.variants) ∧
    (∀ (variants : List ContentVariant) (pref : Quality),
        variants ≠ [] → selectBestQuality variants pref < variants.length) := by
  have hsbq : ∀ (variants : List ContentVariant) (pref : Quality),
      variants ≠ [] → selectBestQuality variants pref < variants.length := by
    intro variants pref hne
    obtain ⟨v, hv, -, -⟩ := selectBestQuality_spec variants pref hne
    obtain ⟨hlt, -⟩ := List.getElem?_eq_some.mp hv
    exact hlt
  refine ⟨?_, hsbq⟩
  intro content prefs hne
  by_cases h1 : content.variants.length = 1
  · rw [selectBestVariant_single content prefs h1]
    exact headD_mem _ hne
  · cases htype : content.type with
    | channel =>
      rw [selectBestVariant_channel content prefs htype h1]
      exact jsVariantAtOrFirst_mem _ hne
    | movie =>
      rw [selectBestVariant_movie content prefs htype h1]
      cases hf : content.variants.find?
          (fun v => v.language = some prefs.movies.preferredLanguage) with
      | some langMatch =>
        exact List.mem_of_find?_eq_some hf
      | none =>
        exact jsVariantAtOrFirst_mem _ hne
    | series =>
      rw [selectBestVariant_series content prefs htype h1]
      cases hf : content.variants.find?
          (fun v => v.language = some prefs.series.preferredLanguage) with
      | some langMatch =>
        exact List.mem_of_find?_eq_some hf
      | none =>
        exact jsVariantAtOrFirst_mem _ hne

/-- Witness for C10 (an untagged single variant, preference `auto`). -/
theorem C10_witness :
    selectBestVariant (contentWith [vOf 0 none]) (prefsWith Quality.auto) ∈
      (contentWith [vOf 0 none]).variants ∧
    selectBestQuality [vOf 0 none] Quality.auto < 1 := by
  refine ⟨C10_selection_safety.1 _ _ (by decide), ?_⟩
  have h := C10_selection_safety.2 [vOf 0 none] Quality.auto (by decide)
  simpa using h

/-! ## Helper lemmas: grouping -/

/-- The member list stored for key `k` (first — and by construction unique —
entry of the association list), `[]` when absent. -/
def groupOf (k : Str) : List (Str × List Channel) → List Channel
  | [] => []
  | (k0, g) :: rest => if k0 = k then g else groupOf k rest

/-- The common grouping fold of the three dedup functions. -/
def groupFold (keyf : Channel → Str) (l : List Channel)
    (gs : List (Str × List Channel)) : List (Str × List Channel) :=
  l.foldl (fun gs ch => insertGrouped (keyf ch) ch gs) gs

lemma insertGrouped_cons_eq {k' k0 : Str} (ch : Channel) (g : List Channel)
    (rest : List (Str × List Channel)) (h : k0 = k') :
    insertGrouped k' ch ((k0, g) :: rest) = (k0, g ++ [ch]) :: rest := by
  simp [insertGrouped, h]

lemma insertGrouped_cons_ne {k' k0 : Str} (ch : Channel) (g : List Channel)
    (rest : List (Str × List Channel)) (h : ¬ k0 = k') :
    insertGrouped k' ch ((k0, g) :: rest) = (k0, g) :: insertGrouped k' ch rest := by
  simp [insertGrouped, h]

lemma groupOf_insertGrouped (k k' : Str) (ch : Channel)
    (gs : List (Str × List Channel)) :
    groupOf k (insertGrouped k' ch gs) =
      if k' = k then groupOf k gs ++ [ch] else groupOf k gs := by
  induction gs with
  | nil =>
    by_cases hkk : k' = k
    · simp [insertGrouped, groupOf, hkk]
    · simp [insertGrouped, groupOf, hkk]
  | cons kg rest ih =>
    obtain ⟨k0, g⟩ := kg
    by_cases h0 : k0 = k'
    · rw [insertGrouped_cons_eq ch g rest h0]
      by_cases h0k : k0 = k
      · have hk'k : k' = k := h0.symm.trans h0k
        simp [groupOf, h0k, hk'k]
      · have hk'k : ¬ k' = k := fun h => h0k (h0.trans h)
        simp [groupOf, h0k, hk'k]
    · rw [insertGrouped_cons_ne ch g rest h0]
      by_cases h0k : k0 = k
      · have hk'k : ¬ k' = k := fun h => h0 (h0k.trans h.symm)
        simp [groupOf, h0k, hk'k]
      · simp only [groupOf, if_neg h0k]
        exact ih

lemma groupOf_groupFold (keyf : Channel → Str) (k : Str) (l : List Channel)
    (gs : List (Str × List Channel)) :
    groupOf k (groupFold keyf l gs) =
      groupOf k gs ++ l.filter (fun ch => keyf ch = k) := by
  induction l generalizing gs with
  | nil => simp [groupFold]
  | cons ch rest ih =>
    rw [show groupFold keyf (ch :: rest) gs =
        groupFold keyf rest (insertGrouped (keyf ch) ch gs) from rfl]
    rw [ih, groupOf_insertGrouped, List.filter_cons]
    by_cases hk : keyf ch = k
    · simp [hk]
    · simp [hk]

/-- Keys of the association list. -/
lemma keys_insertGrouped {x : Str} {k : Str} {ch : Channel} :
    ∀ {gs : List (Str × List Channel)},
      x ∈ (insertGrouped k ch gs).map Prod.fst → x ∈ gs.map Prod.fst ∨ x = k := by
  intro gs
  induction gs with
  | nil =>
    intro hx
    simp [insertGrouped] at hx
    exact Or.inr hx
  | cons kg rest ih =>
    obtain ⟨k0, g⟩ := kg
    intro hx
    by_cases h0 : k0 = k
    · rw [insertGrouped_cons_eq ch g rest h0, List.map_cons] at hx
      rcases List.mem_cons.mp hx with rfl | hx'
      · exact Or.inl (by simp)
      · exact Or.inl (by rw [List.map_cons]; exact List.mem_cons_of_mem _ hx')
    · rw [insertGrouped_cons_ne ch g rest h0, List.map_cons] at hx
      rcases List.mem_cons.mp hx with rfl | hx'
      · exact Or.inl (by simp)
      · rcases ih hx' with h | h
        · exact Or.inl (by rw [List.map_cons]; exact List.mem_cons_of_mem _ h)
        · exact Or.inr h

lemma keysNodup_insertGrouped {k : Str} {ch : Channel}
    {gs : List (Str × List Channel)} (h : (gs.map Prod.fst).Nodup) :
    ((insertGrouped k ch gs).map Prod.fst).Nodup := by
  induction gs with
  | nil => simp [insertGrouped]
  | cons kg rest ih =>
    obtain ⟨k0, g⟩ := kg
    rw [List.map_cons, List.nodup_cons] at h
    obtain ⟨hk0, hrest⟩ := h
    by_cases h0 : k0 = k
    · rw [insertGrouped_cons_eq ch g rest h0]
      rw [List.map_cons, List.nodup_cons]
      exact ⟨hk0, hrest⟩
    · rw [insertGrouped_cons_ne ch g rest h0]
      rw [List.map_cons, List.nodup_cons]
      refine ⟨fun hx => ?_, ih hrest⟩
      rcases keys_insertGrouped hx with hmem | heq
      · exact hk0 hmem
      · exact h0 heq

lemma keysNodup_groupFold (keyf : Channel → Str) (l : List Channel)
    (gs : List (Str × List Channel)) (h : (gs.map Prod.fst).Nodup) :
    ((groupFold keyf l gs).map Prod.fst).Nodup := by
  induction l generalizing gs with
  | nil => exact h
  | cons ch rest ih =>
    exact ih _ (keysNodup_insertGrouped h)

/-- With distinct keys, each entry's stored list is its `groupOf`. -/
lemma groupOf_of_mem {p : Str × List Channel} {gs : List (Str × List Channel)}
    (hnodup : (gs.map Prod.fst).Nodup) (hp : p ∈ gs) :
    groupOf p.1 gs = p.2 := by
  induction gs with
  | nil => exact absurd hp (List.not_mem_nil p)
  | cons kg rest ih =>
    obtain ⟨k0, g⟩ := kg
    rw [List.map_cons, List.nodup_cons] at hnodup
    obtain ⟨hk0, hrest⟩ := hnodup
    rcases List.mem_cons.mp hp with rfl | hmem
    · simp [groupOf]
    · have hne : k0 ≠ p.1 := by
        intro h
        exact hk0 (h ▸ List.mem_map.mpr ⟨p, hmem, rfl⟩)
      rw [show groupOf p.1 ((k0, g) :: rest) = groupOf p.1 rest from by
        simp [groupOf, hne]]
      exact ih hrest hmem

/-- Total number of records stored in the groups. -/
def totalLen (gs : List (Str × List Channel)) : Nat :=
  (gs.map (fun kg => kg.2.length)).sum

lemma totalLen_insertGrouped (k : Str) (ch : Channel)
    (gs : List (Str × List Channel)) :
    totalLen (insertGrouped k ch gs) = totalLen gs + 1 := by
  induction gs with
  | nil => simp [insertGrouped, totalLen]
  | cons kg rest ih =>
    obtain ⟨k0, g⟩ := kg
    by_cases h0 : k0 = k
    · subst h0
      rw [show insertGrouped k0 ch ((k0, g) :: rest) = (k0, g ++ [ch]) :: rest from by
        simp [insertGrouped]]
      simp [totalLen]
      omega
    · rw [show insertGrouped k ch ((k0, g) :: rest) =
          (k0, g) :: insertGrouped k ch rest from by simp [insertGrouped, h0]]
      simp [totalLen] at ih ⊢
      omega

lemma totalLen_groupFold (keyf : Channel → Str) (l : List Channel)
    (gs : List (Str × List Channel)) :
    totalLen (groupFold keyf l gs) = totalLen gs + l.length := by
  induction l generalizing gs with
  | nil => simp [groupFold]
  | cons ch rest ih =>
    rw [show groupFold keyf (ch :: rest) gs =
        groupFold keyf rest (insertGrouped (keyf ch) ch gs) from rfl]
    rw [ih, totalLen_insertGrouped]
    simp
    omega

/-- Groups are never stored empty. -/
lemma nonempty_insertGrouped {k : Str} {ch : Channel}
    {gs : List (Str × List Channel)} (h : ∀ kg ∈ gs, kg.2 ≠ [])
    {kg : Str × List Channel} (hkg : kg ∈ insertGrouped k ch gs) : kg.2 ≠ [] := by
  induction gs with
  | nil =>
    simp [insertGrouped] at hkg
    rw [hkg]
    simp
  | cons kg0 rest ih =>
    obtain ⟨k0, g⟩ := kg0
    by_cases h0 : k0 = k
    · rw [insertGrouped_cons_eq ch g rest h0] at hkg
      rcases List.mem_cons.mp hkg with rfl | hmem
      · simp
      · exact h kg (List.mem_cons_of_mem _ hmem)
    · rw [insertGrouped_cons_ne ch g rest h0] at hkg
      rcases List.mem_cons.mp hkg with rfl | hmem
      · exact h (k0, g) (List.mem_cons_self _ _)
      · exact ih (fun kg' h' => h kg' (List.mem_cons_of_mem _ h')) hmem

lemma nonempty_groupFold (keyf : Channel → Str) (l : List Channel)
    (gs : List (Str × List Channel)) (h : ∀ kg ∈ gs, kg.2 ≠ []) :
    ∀ kg ∈ groupFold keyf l gs, kg.2 ≠ [] := by
  induction l generalizing gs with
  | nil => exact h
  | cons ch rest ih =>
    exact ih _ (fun kg hkg => nonempty_insertGrouped h hkg)

/-! ## Helper lemmas: `emitGroups` -/

lemma mem_emitGroups {t : ContentType} {groups : List (Str × List Channel)}
    {g : DeduplicatedContent} (hg : g ∈ emitGroups t groups) :
    ∃ kg ∈ groups, kg.2 ≠ [] ∧ g.variants = kg.2.map mkVariant := by
  obtain ⟨kg, hmem, hf⟩ := List.mem_filterMap.mp hg
  cases h2 : kg.2 with
  | nil =>
    rw [h2] at hf
    exact absurd hf (by simp)
  | cons first r =>
    rw [h2] at hf
    refine ⟨kg, hmem, by rw [h2]; exact List.cons_ne_nil _ _, ?_⟩
    have hgq := Option.some.inj hf
    rw [← hgq, h2]

lemma emitGroups_mem_of {t : ContentType} {groups : List (Str × List Channel)}
    {p : Str × List Channel} (hpmem : p ∈ groups) (hne : p.2 ≠ []) :
    ∃ g ∈ emitGroups t groups, g.variants = p.2.map mkVariant := by
  cases h2 : p.2 with
  | nil => exact absurd h2 hne
  | cons first r =>
    refine ⟨{ id := first.id
              name := (parseContentMetadata first.name).cleanName
              logo := first.logo
              group := first.group
              type := t
              metadata := parseContentMetadata first.name
              variants := (first :: r).map mkVariant }, ?_, rfl⟩
    refine List.mem_filterMap.mpr ⟨p, hpmem, ?_⟩
    rw [h2]

lemma emitGroups_sum {t : ContentType} :
    ∀ {groups : List (Str × List Channel)}, (∀ kg ∈ groups, kg.2 ≠ []) →
      ((emitGroups t groups).map (fun g => g.variants.length)).sum = totalLen groups := by
  intro groups
  induction groups with
  | nil => intro _; rfl
  | cons kg rest ih =>
    intro h
    have hkg : kg.2 ≠ [] := h kg (List.mem_cons_self _ _)
    have hrest := fun kg' h' => h kg' (List.mem_cons_of_mem _ h')
    cases h2 : kg.2 with
    | nil => exact absurd h2 hkg
    | cons first r =>
      unfold emitGroups
      rw [List.filterMap_cons]
      simp only [h2]
      unfold emitGroups at ih
      rw [List.map_cons, List.sum_cons, ih hrest]
      simp [totalLen, h2]

lemma exists_entry_of_groupOf_ne {k : Str} :
    ∀ {gs : List (Str × List Channel)}, groupOf k gs ≠ [] →
      ∃ p ∈ gs, p.1 = k ∧ p.2 = groupOf k gs := by
  intro gs
  induction gs with
  | nil => intro h; exact absurd rfl h
  | cons kg rest ih =>
    obtain ⟨k0, g⟩ := kg
    intro h
    by_cases h0 : k0 = k
    · refine ⟨(k0, g), List.mem_cons_self _ _, h0, ?_⟩
      simp [groupOf, h0]
    · rw [show groupOf k ((k0, g) :: rest) = groupOf k rest from by
        simp [groupOf, h0]] at h ⊢
      obtain ⟨p, hp, h1, h2⟩ := ih h
      exact ⟨p, List.mem_cons_of_mem _ hp, h1, h2⟩

/-- The guarded fold of `deduplicateChannels` equals the plain grouping fold
over the live records. -/
lemma channels_fold_eq (l : List Channel) (gs : List (Str × List Channel)) :
    l.foldl (fun gs ch =>
      if !ch.isLive then gs
      else insertGrouped (getContentKey ch.name .channel) ch gs) gs =
    groupFold (fun ch => getContentKey ch.name .channel)
      (l.filter (fun ch => ch.isLive)) gs := by
  induction l generalizing gs with
  | nil => rfl
  | cons ch rest ih =>
    rw [List.foldl_cons, List.filter_cons]
    cases hl : ch.isLive with
    | true =>
      simp only [hl, Bool.not_true, Bool.false_eq_true, if_false, if_pos]
      exact ih _
    | false =>
      simp only [hl, Bool.not_false, if_true, Bool.false_eq_true, if_false]
      exact ih _

lemma deduplicateChannels_eq (input : List Channel) :
    deduplicateChannels input =
      emitGroups .channel (groupFold (fun ch => getContentKey ch.name .channel)
        (input.filter (fun ch => ch.isLive)) []) := by
  unfold deduplicateChannels
  rw [channels_fold_eq]

lemma deduplicateMovies_eq (input : List Channel) :
    deduplicateMovies input =
      emitGroups .movie (groupFold (fun ch => getContentKey ch.name .movie)
        (input.filter (fun ch => !ch.isLive && ch.streamType = some .vod)) []) := rfl

lemma deduplicateSeries_eq (input : List Channel) :
    deduplicateSeries input =
      emitGroups .series (groupFold (fun ch => getContentKey ch.name .series)
        (input.filter (fun ch => !ch.isLive && ch.streamType = some .series)) []) := rfl

/-- Core partition property for one grouping pass. -/
lemma dedup_groups_spec (keyf : Channel → Str) (t : ContentType) (l : List Channel) :
    (∀ g ∈ emitGroups t (groupFold keyf l []),
        g.variants ≠ [] ∧
          ∃ k, g.variants = (l.filter (fun ch => keyf ch = k)).map mkVariant) ∧
    ((emitGroups t (groupFold keyf l [])).map (fun g => g.variants.length)).sum =
      l.length := by
  have hnodup : ((groupFold keyf l []).map Prod.fst).Nodup :=
    keysNodup_groupFold keyf l [] (by simp)
  have hne := nonempty_groupFold keyf l [] (by simp)
  constructor
  · intro g hg
    obtain ⟨kg, hkg, hkgne, hvar⟩ := mem_emitGroups hg
    constructor
    · rw [hvar]
      intro hnil
      exact hkgne (List.map_eq_nil_iff.mp hnil)
    · refine ⟨kg.1, ?_⟩
      rw [hvar]
      have hof := groupOf_of_mem hnodup hkg
      have : kg.2 = l.filter (fun ch => keyf ch = kg.1) := by
        rw [← hof, groupOf_groupFold]
        simp [groupOf]
      rw [this]
  · rw [emitGroups_sum hne, totalLen_groupFold]
    simp [totalLen]

/-! ## Claim C7 -/

/-- C7: each of the three dedup functions partitions the matching-type
records: every emitted group has a non-empty variants list which is exactly
the key-filtered sublist of the matching records in encounter order, and the
variant counts sum to the number of matching records. -/
theorem C7_dedup_partition (input : List Channel) :
    ((∀ g ∈ deduplicateChannels input,
        g.variants ≠ [] ∧ ∃ k, g.variants =
          ((input.filter (fun ch => ch.isLive)).filter
            (fun ch => getContentKey ch.name ContentType.channel = k)).map mkVariant) ∧
      ((deduplicateChannels input).map (fun g => g.variants.length)).sum =
        (input.filter (fun ch => ch.isLive)).length) ∧
    ((∀ g ∈ deduplicateMovies input,
        g.variants ≠ [] ∧ ∃ k, g.variants =
          ((input.filter (fun ch => !ch.isLive && ch.streamType = some StreamType.vod)).filter
            (fun ch => getContentKey ch.name ContentType.movie = k)).map mkVariant) ∧
      ((deduplicateMovies input).map (fun g => g.variants.length)).sum =
        (input.filter (fun ch => !ch.isLive && ch.streamType = some StreamType.vod)).length) ∧
    ((∀ g ∈ deduplicateSeries input,
        g.variants ≠ [] ∧ ∃ k, g.variants =
          ((input.filter (fun ch => !ch.isLive && ch.streamType = some StreamType.series)).filter
            (fun ch => getContentKey ch.name ContentType.series = k)).map mkVariant) ∧
      ((deduplicateSeries input).map (fun g => g.variants.length)).sum =
        (input.filter (fun ch => !ch.isLive && ch.streamType = some StreamType.series)).length) := by
  refine ⟨?_, ?_, ?_⟩
  · rw [deduplicateChannels_eq]
    exact dedup_groups_spec (fun ch => getContentKey ch.name .channel) .channel
      (input.filter (fun ch => ch.isLive))
  · rw [deduplicateMovies_eq]
    exact dedup_groups_spec (fun ch => getContentKey ch.name .movie) .movie
      (input.filter (fun ch => !ch.isLive && ch.streamType = some .vod))
  · rw [deduplicateSeries_eq]
    exact dedup_groups_spec (fun ch => getContentKey ch.name .series) .series
      (input.filter (fun ch => !ch.isLive && ch.streamType = some .series))

/-- C7 witness input: one live channel record and one series record. -/
def c7Input : List Channel :=
  [{ id := "a".toList, name := "TF1".toList, url := "u1".toList, isLive := true },
   { id := "b".toList, name := "Show S01E01".toList, url := "u2".toList,
     isLive := false, streamType := some .series }]

/-- Witness for C7: the partition property evaluated on `c7Input`. -/
theorem C7_witness :
    (∃ g ∈ deduplicateChannels c7Input, g.variants ≠ []) ∧
    ((deduplicateChannels c7Input).map (fun g => g.variants.length)).sum =
      (c7Input.filter (fun ch => ch.isLive)).length ∧
    ((deduplicateSeries c7Input).map (fun g => g.variants.length)).sum =
      (c7Input.filter (fun ch =>
        !ch.isLive && ch.streamType = some StreamType.series)).length := by
  have h := C7_dedup_partition c7Input
  refine ⟨?_, h.1.2, h.2.2.2⟩
  have hne : deduplicateChannels c7Input ≠ [] := by decide
  cases hd : deduplicateChannels c7Input with
  | nil => exact absurd hd hne
  | cons g rest =>
    have hgmem : g ∈ deduplicateChannels c7Input :=
      hd.symm ▸ List.mem_cons_self g rest
    exact ⟨g, List.mem_cons_self g rest, (h.1.1 g hgmem).1⟩

/-! ## Helper lemmas: field projections of the metadata extractor -/

lemma parseContentMetadata_country (name : Str) :
    (parseContentMetadata name).country = (parseContentMetadataCore name).country := rfl

lemma parseContentMetadata_quality (name : Str) :
    (parseContentMetadata name).quality = (parseContentMetadataCore name).quality := rfl

lemma parseContentMetadata_language (name : Str) :
    (parseContentMetadata name).language = (parseContentMetadataCore name).language := rfl

lemma parseContentMetadata_year (name : Str) :
    (parseContentMetadata name).year = (parseContentMetadataCore name).year := rfl

lemma parseContentMetadata_season (name : Str) :
    (parseContentMetadata name).season = (parseContentMetadataCore name).season := rfl

lemma parseContentMetadata_episode (name : Str) :
    (parseContentMetadata name).episode = (parseContentMetadataCore name).episode := rfl

set_option maxHeartbeats 1000000 in
lemma parseContentMetadata_cleanName (name : Str) :
    (parseContentMetadata name).cleanName =
      if (parseContentMetadataCore name).cleanName = [] then name
      else (parseContentMetadataCore name).cleanName := by
  unfold parseContentMetadata
  rfl

lemma core_country (name : Str) :
    (parseContentMetadataCore name).country = (extractCountry name).1 := rfl

lemma core_quality (name : Str) :
    (parseContentMetadataCore name).quality =
      (extractTagged QUALITY_PATTERNS name (extractCountry name).2).1 := rfl

lemma core_language (name : Str) :
    (parseContentMetadataCore name).language =
      (extractTagged LANGUAGE_PATTERNS name
        (extractTagged QUALITY_PATTERNS name (extractCountry name).2).2).1 := rfl

lemma core_year (name : Str) :
    (parseContentMetadataCore name).year =
      (scanFind yearAt none name).map (fun r => r.2) := by
  unfold parseContentMetadataCore
  cases scanFind yearAt none name <;> rfl

lemma core_season_none (name : Str)
    (h1 : scanFind seasonEpisodeAt none name = none)
    (h2 : scanFind seasonAt none name = none) :
    (parseContentMetadataCore name).season = none ∧
      (parseContentMetadataCore name).episode = none := by
  unfold parseContentMetadataCore
  rw [h1, h2]
  exact ⟨rfl, rfl⟩

/-- First-match-wins characterisation of the tagged-pattern loops: the tag of
the earliest pattern whose test succeeds on the original name. -/
lemma extractTagged_fst {τ : Type} (pats : List (τ × WordPat)) (name clean : Str) :
    (extractTagged pats name clean).1 =
      (pats.find? (fun tp => patTest tp.2 name)).map Prod.fst := by
  induction pats generalizing clean with
  | nil => rfl
  | cons tp rest ih =>
    obtain ⟨t, p⟩ := tp
    rw [List.find?_cons]
    cases h : patTest p name with
    | true => simp [extractTagged, h]
    | false => simp [extractTagged, h, ih]

lemma groupOf_nil (k : Str) : groupOf k [] = [] := rfl

lemma getContentKey_channel (name : Str) :
    getContentKey name ContentType.channel =
      (parseContentMetadata name).cleanName.map lowerChar ++
        '_' :: ((parseContentMetadata name).country.getD "unknown".toList) := rfl

lemma getContentKey_series (name : Str) :
    getContentKey name ContentType.series =
      (parseContentMetadata name).cleanName.map lowerChar ++
        '_' :: 's' :: natStr ((parseContentMetadata name).season.getD 0) := rfl

/-! ## Claim C5 -/

/-- C5: the language field is the tag of the first entry of the ordered table
`LANGUAGE_PATTERNS` (MULTI, VFF, VF, TRUEFRENCH, VOSTFR, VO) whose pattern
matches the raw name; in particular "VFF Drama" yields VFF (not VF) and
"Show VOSTFR" yields VOSTFR (not VO). -/
theorem C5_language_first_match :
    (∀ name : Str, (parseContentMetadata name).language =
        (LANGUAGE_PATTERNS.find? (fun lp => patTest lp.2 name)).map Prod.fst) ∧
    (parseContentMetadata "VFF Drama".toList).language = some "VFF".toList ∧
    (parseContentMetadata "Show VOSTFR".toList).language = some "VOSTFR".toList := by
  refine ⟨?_, by decide, by decide⟩
  intro name
  rw [parseContentMetadata_language, core_language, extractTagged_fst]

/-! ## Claim C6 -/

/-- C6: the content key is the stated deterministic function of the raw name
(channel: lowercased clean name + "_" + country-or-"unknown"; series:
lowercased clean name + "_s" + season-or-0), and two live records with equal
clean name and equal detected country always end up in the same group of
`deduplicateChannels`, whatever the rest of the input. -/
theorem C6_content_key :
    (∀ name : Str, getContentKey name ContentType.channel =
        (parseContentMetadata name).cleanName.map lowerChar ++
          '_' :: ((parseContentMetadata name).country.getD "unknown".toList)) ∧
    (∀ name : Str, getContentKey name ContentType.series =
        (parseContentMetadata name).cleanName.map lowerChar ++
          '_' :: 's' :: natStr ((parseContentMetadata name).season.getD 0)) ∧
    (∀ (input : List Channel) (a b : Channel), a ∈ input → b ∈ input →
        a.isLive = true → b.isLive = true →
        (parseContentMetadata a.name).cleanName = (parseContentMetadata b.name).cleanName →
        (parseContentMetadata a.name).country = (parseContentMetadata b.name).country →
        ∃ g ∈ deduplicateChannels input,
          mkVariant a ∈ g.variants ∧ mkVariant b ∈ g.variants) := by
  refine ⟨fun name => rfl, fun name => rfl, ?_⟩
  intro input a b ha hb hal hbl hcn hcountry
  have hkey : getContentKey a.name ContentType.channel =
      getContentKey b.name ContentType.channel := by
    rw [getContentKey_channel, getContentKey_channel, hcn, hcountry]
  have hgrp : groupOf (getContentKey a.name ContentType.channel)
      (groupFold (fun ch => getContentKey ch.name ContentType.channel)
        (input.filter (fun ch => ch.isLive)) []) =
      (input.filter (fun ch => ch.isLive)).filter
        (fun ch => getContentKey ch.name ContentType.channel =
          getContentKey a.name ContentType.channel) := by
    rw [groupOf_groupFold, groupOf_nil, List.nil_append]
  have haf : a ∈ (input.filter (fun ch => ch.isLive)).filter
      (fun ch => getContentKey ch.name ContentType.channel =
        getContentKey a.name ContentType.channel) :=
    List.mem_filter.mpr ⟨List.mem_filter.mpr ⟨ha, hal⟩, by simp⟩
  have hbf : b ∈ (input.filter (fun ch => ch.isLive)).filter
      (fun ch => getContentKey ch.name ContentType.channel =
        getContentKey a.name ContentType.channel) :=
    List.mem_filter.mpr ⟨List.mem_filter.mpr ⟨hb, hbl⟩, by simp [hkey]⟩
  have hne : groupOf (getContentKey a.name ContentType.channel)
      (groupFold (fun ch => getContentKey ch.name ContentType.channel)
        (input.filter (fun ch => ch.isLive)) []) ≠ [] := by
    rw [hgrp]
    exact List.ne_nil_of_mem haf
  obtain ⟨p, hp, hpk, hpg⟩ := exists_entry_of_groupOf_ne hne
  have hpne : p.2 ≠ [] := by
    rw [hpg, hgrp]
    exact List.ne_nil_of_mem haf
  obtain ⟨g, hgmem, hgvar⟩ := emitGroups_mem_of (t := ContentType.channel) hp hpne
  refine ⟨g, ?_, ?_, ?_⟩
  · rw [deduplicateChannels_eq]
    exact hgmem
  · rw [hgvar, hpg, hgrp]
    exact List.mem_map_of_mem mkVariant haf
  · rw [hgvar, hpg, hgrp]
    exact List.mem_map_of_mem mkVariant hbf

/-- C6 witness records: same clean name ("TF1") and country (FR) under two
different spellings of the prefix. -/
def c6A : Channel :=
  { id := "a1".toList, name := "FR: TF1".toList, url := "u1".toList, isLive := true }

def c6B : Channel :=
  { id := "b1".toList, name := "FR | TF1".toList, url := "u2".toList, isLive := true }

/-- Witness for C6: the two records share one group. -/
theorem C6_witness :
    ∃ g ∈ deduplicateChannels [c6A, c6B],
      mkVariant c6A ∈ g.variants ∧ mkVariant c6B ∈ g.variants :=
  C6_content_key.2.2 [c6A, c6B] c6A c6B (by decide) (by decide) rfl rfl
    (by decide) (by decide)

/-! ## Claim C8 -/

/-- C8: the metadata extractor is a total function (the embedding is a Lean
function, mirroring the throw-free TypeScript); every field whose pattern
fails to match is absent; and when the stripped working name is empty the
clean name falls back to the raw title unmodified. -/
theorem C8_extractor_safety (name : Str) :
    ((parseContentMetadataCore name).cleanName = [] →
      (parseContentMetadata name).cleanName = name) ∧
    ((parseContentMetadataCore name).cleanName ≠ [] →
      (parseContentMetadata name).cleanName = (parseContentMetadataCore name).cleanName) ∧
    ((countryPrefixAt name = none ∨
        ∃ pr len, countryPrefixAt name = some (pr, len) ∧
          COUNTRIES_keys.contains (pr.map upperChar) = false) →
      (∀ cp ∈ COUNTRY_PATTERNS, ¬ patTest cp.2 name = true) →
      (parseContentMetadata name).country = none) ∧
    ((∀ qp ∈ QUALITY_PATTERNS, ¬ patTest qp.2 name = true) →
      (parseContentMetadata name).quality = none) ∧
    ((∀ lp ∈ LANGUAGE_PATTERNS, ¬ patTest lp.2 name = true) →
      (parseContentMetadata name).language = none) ∧
    (scanFind yearAt none name = none → (parseContentMetadata name).year = none) ∧
    (scanFind seasonEpisodeAt none name = none →
      scanFind seasonAt none name = none →
      (parseContentMetadata name).season = none ∧
      (parseContentMetadata name).episode = none) := by
  refine ⟨?_, ?_, ?_, ?_, ?_, ?_, ?_⟩
  · intro h
    rw [parseContentMetadata_cleanName, if_pos h]
  · intro h
    rw [parseContentMetadata_cleanName, if_neg h]
  · intro hpre hscan
    rw [parseContentMetadata_country, core_country]
    rcases hpre with h | ⟨pr, len, hsome, hfalse⟩
    · unfold extractCountry
      rw [h, List.find?_eq_none.mpr hscan]
    · unfold extractCountry
      rw [hsome]
      simp only [hfalse, Bool.false_eq_true, if_false]
      rw [List.find?_eq_none.mpr hscan]
  · intro h
    rw [parseContentMetadata_quality, core_quality, extractTagged_fst,
      List.find?_eq_none.mpr h]
    rfl
  · intro h
    rw [parseContentMetadata_language, core_language, extractTagged_fst,
      List.find?_eq_none.mpr h]
    rfl
  · intro h
    rw [parseContentMetadata_year, core_year, h]
    rfl
  · intro h1 h2
    rw [parseContentMetadata_season, parseContentMetadata_episode]
    exact core_season_none name h1 h2

/-- Witness for C8: a quality-only title falls back to the raw name, and a
tag-free title has every optional field absent. -/
theorem C8_witness :
    (parseContentMetadata "FHD".toList).cleanName = "FHD".toList ∧
    (parseContentMetadata "xyz".toList).country = none ∧
    (parseContentMetadata "xyz".toList).quality = none ∧
    (parseContentMetadata "xyz".toList).language = none ∧
    (parseContentMetadata "xyz".toList).year = none ∧
    (parseContentMetadata "xyz".toList).season = none := by
  refine ⟨(C8_extractor_safety "FHD".toList).1 (by decide),
    (C8_extractor_safety "xyz".toList).2.2.1 (Or.inl (by decide)) (by decide),
    (C8_extractor_safety "xyz".toList).2.2.2.1 (by decide),
    (C8_extractor_safety "xyz".toList).2.2.2.2.1 (by decide),
    (C8_extractor_safety "xyz".toList).2.2.2.2.2.1 (by decide),
    ((C8_extractor_safety "xyz".toList).2.2.2.2.2.2 (by decide) (by decide)).1⟩

/-! ## Helper lemmas: the `parseM3U` loop -/

/-- The number of pending (EXTINF-seen, URL-not-yet-seen) records: 0 or 1. -/
def pendingCount (st : M3ULoopState) : Nat :=
  match st.currentData with
  | some _ => 1
  | none => 0

/-- A line whose trimmed form starts with `#EXTINF:` only replaces the pending
record; it emits nothing. -/
lemma m3uStep_extinf (st : M3ULoopState) (line : Str)
    (h : List.isPrefixOf "#EXTINF:".toList (jsTrim line) = true) :
    (m3uStep st line).channels = st.channels := by
  have hne : jsTrim line ≠ [] := by
    intro hnil
    rw [hnil] at h
    simp [List.isPrefixOf] at h
  have hnh : ¬ List.isPrefixOf "#EXTM3U".toList (jsTrim line) = true := by
    obtain ⟨rest, hcat⟩ := (List.isPrefixOf_iff_prefix.mp h)
    intro hc
    rw [← hcat] at hc
    simp [List.isPrefixOf] at hc
  unfold m3uStep
  rw [if_neg hne, if_neg hnh, if_pos h]

/-- A line whose trimmed form is an `#EXTINF:` directive. -/
def isExtinfLine (l : Str) : Bool := List.isPrefixOf "#EXTINF:".toList (jsTrim l)

/-- One loop step can add at most one channel, and only by consuming the
pending record; an `#EXTINF:` line adds one pending record. -/
lemma m3uStep_bound (st : M3ULoopState) (line : Str) :
    (m3uStep st line).channels.length + pendingCount (m3uStep st line) ≤
      st.channels.length + pendingCount st +
        (if isExtinfLine line then 1 else 0) := by
  by_cases h0 : jsTrim line = []
  · have hstep : m3uStep st line = st := by
      unfold m3uStep
      rw [if_pos h0]
    rw [hstep]
    exact Nat.le_add_right _ _
  by_cases h1 : List.isPrefixOf "#EXTM3U".toList (jsTrim line) = true
  · have hstep : m3uStep st line = { st with header := parseHeader (jsTrim line) } := by
      unfold m3uStep
      rw [if_neg h0, if_pos h1]
    rw [hstep]
    exact Nat.le_add_right _ _
  by_cases h2 : List.isPrefixOf "#EXTINF:".toList (jsTrim line) = true
  · have hstep : m3uStep st line =
        { st with currentData := some (parseExtinfAttributes (jsTrim line)) } := by
      unfold m3uStep
      rw [if_neg h0, if_neg h1, if_pos h2]
    rw [hstep, if_pos (show isExtinfLine line = true from h2)]
    show st.channels.length + 1 ≤ st.channels.length + pendingCount st + 1
    omega
  by_cases h3 : (jsTrim line).head? = some '#'
  · have hstep : m3uStep st line = st := by
      unfold m3uStep
      rw [if_neg h0, if_neg h1, if_neg h2, if_pos h3]
    rw [hstep]
    exact Nat.le_add_right _ _
  · cases hcd : st.currentData with
    | none =>
      have hstep : m3uStep st line = st := by
        unfold m3uStep
        rw [if_neg h0, if_neg h1, if_neg h2, if_neg h3, hcd]
      rw [hstep]
      exact Nat.le_add_right _ _
    | some cd =>
      by_cases h4 : (List.isPrefixOf "http".toList (jsTrim line) ||
          List.isPrefixOf "rtmp".toList (jsTrim line) ||
          List.isPrefixOf "rtsp".toList (jsTrim line)) = true
      · have hps : pendingCount st = 1 := by
          unfold pendingCount
          rw [hcd]
        have hstep : (m3uStep st line).channels =
              st.channels ++ [parseChannel cd (jsTrim line) st.header.urlTvg] ∧
            pendingCount (m3uStep st line) = 0 := by
          unfold m3uStep
          rw [if_neg h0, if_neg h1, if_neg h2, if_neg h3, hcd]
          simp only [h4]
          rw [if_pos trivial]
          exact ⟨rfl, rfl⟩
        rw [hstep.1, hstep.2, List.length_append, hps]
        simp
      · have hstep : m3uStep st line = st := by
          unfold m3uStep
          rw [if_neg h0, if_neg h1, if_neg h2, if_neg h3, hcd]
          simp only [h4]
          rw [if_neg Bool.false_ne_true]
        rw [hstep]
        exact Nat.le_add_right _ _

lemma m3uChannels_bound (lines : List Str) : ∀ st : M3ULoopState,
    ((lines.foldl m3uStep st).channels).length ≤
      st.channels.length + pendingCount st + lines.countP isExtinfLine := by
  induction lines with
  | nil =>
    intro st
    rw [List.foldl_nil, List.countP_nil]
    omega
  | cons line rest ih =>
    intro st
    have hstep := m3uStep_bound st line
    have hrec := ih (m3uStep st line)
    rw [List.foldl_cons, List.countP_cons]
    cases hif : isExtinfLine line with
    | true =>
      rw [hif, if_pos rfl] at hstep
      rw [if_pos rfl]
      omega
    | false =>
      rw [hif, if_neg Bool.false_ne_true] at hstep
      rw [if_neg Bool.false_ne_true]
      omega

/-! ## Claim C9 -/

/-- C9: `parseM3U` is a total function of the input text (the embedding is a
plain Lean function, mirroring the throw-free parse loop): the number of
parsed records never exceeds the number of `#EXTINF:` directive lines
(malformed lines only reduce it), and appending an `#EXTINF:` directive with
no following URL line leaves the parsed records unchanged — the orphan is
silently dropped. -/
theorem C9_parseM3U_robust :
    (∀ (content sourceName nowStr : Str) (nowMs : Int),
        (parseM3U content sourceName nowStr nowMs).channels.length ≤
          (splitLines content).countP isExtinfLine) ∧
    (∀ (lines : List Str) (extinfLine : Str),
        List.isPrefixOf "#EXTINF:".toList (jsTrim extinfLine) = true →
        m3uChannels (lines ++ [extinfLine]) = m3uChannels lines) := by
  constructor
  · intro content sourceName nowStr nowMs
    have h := m3uChannels_bound (splitLines content)
      { header := {}, currentData := none, channels := [] }
    simpa [m3uChannels, pendingCount] using h
  · intro lines e he
    unfold m3uChannels
    rw [List.foldl_append, List.foldl_cons, List.foldl_nil]
    exact m3uStep_extinf _ _ he

/-- Witness for C9: a one-record playlist with an appended orphan directive. -/
theorem C9_witness :
    m3uChannels (["#EXTINF:-1,Name".toList, "http://x".toList] ++
        ["#EXTINF:-1,Orphan".toList]) =
      m3uChannels ["#EXTINF:-1,Name".toList, "http://x".toList] ∧
    (parseM3U "#EXTINF:-1,Name\nhttp://x".toList "p".toList "0".toList 0).channels.length ≤ 1 := by
  refine ⟨C9_parseM3U_robust.2 _ _ (by decide), ?_⟩
  have h := C9_parseM3U_robust.1 "#EXTINF:-1,Name\nhttp://x".toList "p".toList "0".toList 0
  exact le_trans h (by decide)

/-! ## Claim C2 -/

/-- C2 counterexample input: a cached program ending exactly at "now". -/
def c2Program : EpgProgram :=
  { id := "p1".toList, channelId := "ch1".toList, title := "T".toList,
    startTimestamp := 0, endTimestamp := 100 }

/-- C2 is false as stated: the program whose end timestamp equals the current
time IS returned (`now <= p.endTimestamp` in the source), contradicting the
half-open `[start, end)` interval of the claim. -/
theorem C2_counterexample :
    getCurrentProgram [("ch1".toList, [c2Program])] 100 "ch1".toList = some c2Program ∧
    c2Program.endTimestamp = 100 := by
  refine ⟨by decide, rfl⟩

/-- C2 (amended): `getCurrentProgram` scans the cached programs and returns a
cached program whose CLOSED interval `[start, end]` contains "now" (the
boundary `end = now` is included); it returns none exactly when there is no
cached entry for the channel or no cached program's closed interval contains
"now". -/
theorem C2_getCurrentProgram_closed (epgData : List (Str × List EpgProgram))
    (now : Int) (channelId : Str) :
    (∀ p, getCurrentProgram epgData now channelId = some p →
      ∃ programs, epgLookup epgData channelId = some programs ∧ p ∈ programs ∧
        p.startTimestamp ≤ now ∧ now ≤ p.endTimestamp) ∧
    (getCurrentProgram epgData now channelId = none ↔
      epgLookup epgData channelId = none ∨
      ∃ programs, epgLookup epgData channelId = some programs ∧
        ∀ p ∈ programs, ¬ (p.startTimestamp ≤ now ∧ now ≤ p.endTimestamp)) := by
  cases hl : epgLookup epgData channelId with
  | none =>
    have hres : getCurrentProgram epgData now channelId = none := by
      unfold getCurrentProgram
      rw [hl]
    constructor
    · intro p hp
      rw [hres] at hp
      cases hp
    · rw [hres]
      exact ⟨fun _ => Or.inl rfl, fun _ => rfl⟩
  | some programs =>
    by_cases hlen : programs.length = 0
    · have hres : getCurrentProgram epgData now channelId = none := by
        unfold getCurrentProgram
        rw [hl]
        show (if programs.length = 0 then none
          else programs.find? (fun p =>
            decide (now ≥ p.startTimestamp) && decide (now ≤ p.endTimestamp))) = none
        rw [if_pos hlen]
      have hemp : programs = [] := List.length_eq_zero.mp hlen
      constructor
      · intro p hp
        rw [hres] at hp
        cases hp
      · rw [hres]
        refine ⟨fun _ => Or.inr ⟨programs, rfl, ?_⟩, fun _ => rfl⟩
        rw [hemp]
        intro p hp
        cases hp
    · have hres : getCurrentProgram epgData now channelId =
          programs.find? (fun p =>
            decide (now ≥ p.startTimestamp) && decide (now ≤ p.endTimestamp)) := by
        unfold getCurrentProgram
        rw [hl]
        show (if programs.length = 0 then none
          else programs.find? (fun p =>
            decide (now ≥ p.startTimestamp) && decide (now ≤ p.endTimestamp))) = _
        rw [if_neg hlen]
      constructor
      · intro p hp
        rw [hres] at hp
        have hpred := List.find?_some hp
        rw [Bool.and_eq_true, decide_eq_true_eq, decide_eq_true_eq] at hpred
        exact ⟨programs, rfl, List.mem_of_find?_eq_some hp, hpred.1, hpred.2⟩
      · rw [hres]
        constructor
        · intro hnone
          refine Or.inr ⟨programs, rfl, ?_⟩
          intro p hp hcon
          apply List.find?_eq_none.mp hnone p hp
          rw [Bool.and_eq_true, decide_eq_true_eq, decide_eq_true_eq]
          exact ⟨hcon.1, hcon.2⟩
        · intro hOr
          rcases hOr with h | ⟨programs', hl', hall⟩
          · simp at h
          · have heq : programs' = programs := (Option.some.inj hl').symm
            subst heq
            apply List.find?_eq_none.mpr
            intro p hp hpred
            rw [Bool.and_eq_true, decide_eq_true_eq, decide_eq_true_eq] at hpred
            exact hall p hp ⟨hpred.1, hpred.2⟩

/-- Witness for C2 (amended): a hit strictly inside the interval, and a miss
after every program's end. -/
theorem C2_witness :
    (∃ programs, epgLookup [("ch1".toList, [c2Program])] "ch1".toList = some programs ∧
      c2Program ∈ programs ∧ c2Program.startTimestamp ≤ 50 ∧
      (50 : Int) ≤ c2Program.endTimestamp) ∧
    getCurrentProgram [("ch1".toList, [c2Program])] 200 "ch1".toList = none := by
  constructor
  · exact (C2_getCurrentProgram_closed [("ch1".toList, [c2Program])] 50 "ch1".toList).1
      c2Program (by decide)
  · exact (C2_getCurrentProgram_closed [("ch1".toList, [c2Program])] 200 "ch1".toList).2.mpr
      (Or.inr ⟨[c2Program], by decide, by decide⟩)

/-! ## Claim C3 -/

/-- C3 is false as stated: `"YWIJY2Q="` is base64-alphabet-only, longer than 4
characters, and decodes to `"ab\tcd"`, which CONTAINS a control character
(TAB, `\x09`); per the claim it must be left raw, yet the code decodes it —
the source's class `[\x00-\x08\x0E-\x1F]` deliberately skips `\x09`–`\x0D`. -/
theorem C3_counterexample :
    decodeEpgText "YWIJY2Q=".toList = ['a', 'b', '\t', 'c', 'd'] ∧
    decodeEpgText "YWIJY2Q=".toList ≠ "YWIJY2Q=".toList ∧
    (∃ c ∈ decodeEpgText "YWIJY2Q=".toList, c.toNat < 32) ∧
    "YWIJY2Q=".toList.all b64AlphaChar = true ∧ 4 < "YWIJY2Q=".toList.length := by
  refine ⟨by decide, by decide, by decide, by decide, by decide⟩

/-- C3 (amended): an EPG title/description string is base64-decoded if and
only if it is non-empty, consists solely of base64 alphabet characters, has
length greater than 4, `atob` succeeds on it, the decoded bytes contain no
character of the class `\x00`–`\x08`, `\x0E`–`\x1F` (tab, LF, VT, FF, CR and
DEL are tolerated), and the bytes form valid UTF-8; when any of these checks
fails, the raw string is used as-is. -/
theorem C3_amended_decode_condition (text : Str) :
    ((text = [] ∨ ¬ text.all b64AlphaChar = true ∨ ¬ 4 < text.length ∨
        atobJs text = none ∨
        (∃ bytes, atobJs text = some bytes ∧ bytes.any badCtrlByte = true) ∨
        (∃ bytes, atobJs text = some bytes ∧ ¬ bytes.any badCtrlByte = true ∧
          utf8DecodeStrict bytes = none)) →
      decodeEpgText text = text) ∧
    (∀ bytes cps, text ≠ [] → text.all b64AlphaChar = true → 4 < text.length →
      atobJs text = some bytes → ¬ bytes.any badCtrlByte = true →
      utf8DecodeStrict bytes = some cps →
      decodeEpgText text = cps.map Char.ofNat) := by
  constructor
  · intro hfail
    unfold decodeEpgText
    rcases hfail with h | h | h | h | ⟨bytes, hb, hctrl⟩ | ⟨bytes, hb, hctrl, hutf⟩
    · exact if_neg (fun hg => hg.1 h)
    · exact if_neg (fun hg => h hg.2.1)
    · exact if_neg (fun hg => h hg.2.2)
    · by_cases hg : (text ≠ [] ∧ text.all b64AlphaChar = true ∧ 4 < text.length)
      · rw [if_pos hg, h]
      · rw [if_neg hg]
    · by_cases hg : (text ≠ [] ∧ text.all b64AlphaChar = true ∧ 4 < text.length)
      · rw [if_pos hg, hb]
        show (if bytes.any badCtrlByte = true then text
          else match utf8DecodeStrict bytes with
            | none => text
            | some cps => cps.map Char.ofNat) = text
        rw [if_pos hctrl]
      · rw [if_neg hg]
    · by_cases hg : (text ≠ [] ∧ text.all b64AlphaChar = true ∧ 4 < text.length)
      · rw [if_pos hg, hb]
        show (if bytes.any badCtrlByte = true then text
          else match utf8DecodeStrict bytes with
            | none => text
            | some cps => cps.map Char.ofNat) = text
        rw [if_neg hctrl, hutf]
      · rw [if_neg hg]
  · intro bytes cps h1 h2 h3 h4 h5 h6
    unfold decodeEpgText
    rw [if_pos ⟨h1, h2, h3⟩, h4]
    show (if bytes.any badCtrlByte = true then text
      else match utf8DecodeStrict bytes with
        | none => text
        | some cps => cps.map Char.ofNat) = cps.map Char.ofNat
    rw [if_neg h5, h6]

/-- Witness for C3 (amended): a valid payload is decoded, a non-alphabet
string is kept raw. -/
theorem C3_amended_witness :
    decodeEpgText "SGVsbG8=".toList = "Hello".toList ∧
    decodeEpgText "Hello World".toList = "Hello World".toList := by
  constructor
  · have h := (C3_amended_decode_condition "SGVsbG8=".toList).2
      [72, 101, 108, 108, 111] [72, 101, 108, 108, 111]
      (by decide) (by decide) (by decide) (by decide) (by decide) (by decide)
    exact h.trans (by decide)
  · exact (C3_amended_decode_condition "Hello World".toList).1
      (Or.inr (Or.inl (by decide)))

end IPTV
